import Mathlib

/-!
A verification development for the kube-batch scheduler slice consisting of
the gang plugin (package gang), the job model (pkg/scheduler/api/job_info.go),
the metrics surface (package metrics) and the server options
(cmd/kube-batch/app/options/options.go).

Go maps are embedded as association lists (`List (key × value)`); the states
reachable by the program keep their keys without duplicates, which is recorded
in the well-formedness predicate `WF` below.  Map iteration order in Go is
unspecified, so every theorem about map contents is stated through lookups
or through order-insensitive aggregates.
-/

namespace KubeBatch

/-! ### Association lists (shallow embedding of Go maps) -/

section AList

variable {κ : Type} {α : Type} [DecidableEq κ]

/-- Lookup of a key in an association list (Go map read). -/
def alLookup (k : κ) : List (κ × α) → Option α
  | [] => none
  | p :: rest => if p.1 = k then some p.2 else alLookup k rest

/-- Store a value under a key (Go map assignment): replaces the first binding
of the key, or appends a fresh binding. -/
def alSet (k : κ) (v : α) : List (κ × α) → List (κ × α)
  | [] => [(k, v)]
  | p :: rest => if p.1 = k then (k, v) :: rest else p :: alSet k v rest

/-- Remove the first binding of a key (Go map delete). -/
def alErase (k : κ) : List (κ × α) → List (κ × α)
  | [] => []
  | p :: rest => if p.1 = k then rest else p :: alErase k rest

/-- The keys of an association list. -/
def alKeys (m : List (κ × α)) : List κ := m.map Prod.fst

theorem alLookup_eq_none_iff (k : κ) (m : List (κ × α)) :
    alLookup k m = none ↔ k ∉ alKeys m := by
  induction m with
  | nil => simp [alLookup, alKeys]
  | cons p rest ih =>
    rcases p with ⟨pk, pv⟩
    by_cases h : pk = k
    · subst h
      simp [alLookup, alKeys]
    · have h' : ¬ k = pk := fun he => h he.symm
      simp [alLookup, alKeys, h, h', ih]

theorem alLookup_set (k k' : κ) (v : α) (m : List (κ × α)) :
    alLookup k' (alSet k v m) = if k' = k then some v else alLookup k' m := by
  induction m with
  | nil =>
    by_cases h : k' = k
    · subst h
      simp [alSet, alLookup]
    · have h' : ¬ k = k' := fun he => h he.symm
      simp [alSet, alLookup, h, h']
  | cons p rest ih =>
    rcases p with ⟨pk, pv⟩
    by_cases hp : pk = k
    · subst hp
      by_cases h : k' = pk
      · subst h
        simp [alSet, alLookup]
      · have h' : ¬ pk = k' := fun he => h he.symm
        simp [alSet, alLookup, h, h']
    · by_cases hpk : pk = k'
      · subst hpk
        simp [alSet, alLookup, hp]
      · simp [alSet, alLookup, hp, hpk, ih]

theorem alLookup_erase (k k' : κ) (m : List (κ × α)) (hnd : (alKeys m).Nodup) :
    alLookup k' (alErase k m) = if k' = k then none else alLookup k' m := by
  induction m with
  | nil => simp [alErase, alLookup]
  | cons p rest ih =>
    rcases p with ⟨pk, pv⟩
    have hnd' : (alKeys rest).Nodup := (List.nodup_cons.mp hnd).2
    have hpmem : pk ∉ alKeys rest := (List.nodup_cons.mp hnd).1
    by_cases hp : pk = k
    · subst hp
      by_cases h : k' = pk
      · subst h
        simp [alErase, (alLookup_eq_none_iff k' rest).mpr hpmem]
      · have h' : ¬ pk = k' := fun he => h he.symm
        simp [alErase, alLookup, h, h']
    · by_cases h : k' = k
      · subst h
        have h' : ¬ pk = k' := fun he => hp he
        simp [alErase, alLookup, hp, h', ih hnd']
      · simp [alErase, alLookup, hp, h, ih hnd']

theorem alSet_absent (k : κ) (v : α) (m : List (κ × α))
    (h : alLookup k m = none) : alSet k v m = m ++ [(k, v)] := by
  induction m with
  | nil => simp [alSet]
  | cons p rest ih =>
    by_cases hp : p.1 = k
    · simp [alLookup, hp] at h
    · simp only [alLookup, if_neg hp] at h
      simp [alSet, hp, ih h]

theorem alKeys_erase_sublist (k : κ) (m : List (κ × α)) :
    (alKeys (alErase k m)).Sublist (alKeys m) := by
  induction m with
  | nil => simp [alErase, alKeys]
  | cons p rest ih =>
    by_cases hp : p.1 = k
    · simp only [alErase, if_pos hp, alKeys, List.map_cons]
      exact List.sublist_cons_self p.1 (rest.map Prod.fst)
    · simp only [alErase, if_neg hp, alKeys, List.map_cons]
      exact ih.cons₂ p.1

theorem alKeys_erase_nodup (k : κ) (m : List (κ × α)) (h : (alKeys m).Nodup) :
    (alKeys (alErase k m)).Nodup :=
  (alKeys_erase_sublist k m).nodup h

theorem alKeys_set_present (k : κ) (v w : α) (m : List (κ × α))
    (hk : alLookup k m = some w) : alKeys (alSet k v m) = alKeys m := by
  induction m with
  | nil => simp [alLookup] at hk
  | cons p rest ih =>
    by_cases hp : p.1 = k
    · simp [alSet, alKeys, if_pos hp, hp.symm]
    · simp only [alLookup, if_neg hp] at hk
      have hr := ih hk
      simp only [alKeys] at hr
      simp [alSet, alKeys, if_neg hp, hr]

theorem alKeys_set_nodup (k : κ) (v : α) (m : List (κ × α))
    (h : (alKeys m).Nodup) : (alKeys (alSet k v m)).Nodup := by
  rcases hk : alLookup k m with _ | w
  · rw [alSet_absent k v m hk]
    have hmem : k ∉ alKeys m := (alLookup_eq_none_iff k m).mp hk
    simp only [alKeys, List.map_append, List.map_cons, List.map_nil]
    rw [List.nodup_append]
    refine ⟨h, List.nodup_singleton k, ?_⟩
    intro a ha hb
    rw [List.mem_singleton] at hb
    exact hmem (hb ▸ ha)
  · rw [alKeys_set_present k v w m hk]
    exact h

theorem alErase_length (k : κ) (v : α) (m : List (κ × α))
    (h : alLookup k m = some v) : m.length = (alErase k m).length + 1 := by
  induction m with
  | nil => simp [alLookup] at h
  | cons p rest ih =>
    by_cases hp : p.1 = k
    · simp [alErase, hp]
    · simp only [alLookup, if_neg hp] at h
      simp [alErase, hp, ih h]

/-- Removing the binding of `k` removes exactly the pair `(k, v)` from every
additive aggregate computed over the list. -/
theorem alErase_map_sum (k : κ) (v : α) (m : List (κ × α)) (f : κ × α → Int)
    (h : alLookup k m = some v) :
    (m.map f).sum = ((alErase k m).map f).sum + f (k, v) := by
  induction m with
  | nil => simp [alLookup] at h
  | cons p rest ih =>
    rcases p with ⟨pk, pv⟩
    by_cases hp : pk = k
    · subst hp
      simp only [alLookup, if_pos] at h
      have hv : pv = v := by simpa using h
      subst hv
      simp [alErase, add_comm]
    · simp only [alLookup, if_neg hp] at h
      simp only [alErase, if_neg hp, List.map_cons, List.sum_cons, ih h]
      ring

/-- Two association lists without duplicate keys and with the same lookups
have the same length. -/
theorem alLookup_length_eq : ∀ (m₁ m₂ : List (κ × α)),
    (alKeys m₁).Nodup → (alKeys m₂).Nodup →
    (∀ k, alLookup k m₁ = alLookup k m₂) → m₁.length = m₂.length := by
  intro m₁
  induction m₁ with
  | nil =>
    intro m₂ _ _ hl
    cases m₂ with
    | nil => rfl
    | cons p rest =>
      have := hl p.1
      simp [alLookup] at this
  | cons p rest ih =>
    intro m₂ hnd₁ hnd₂ hl
    have hp : alLookup p.1 m₂ = some p.2 := by
      have := hl p.1
      simp only [alLookup, if_pos rfl] at this
      exact this.symm
    have hlen : m₂.length = (alErase p.1 m₂).length + 1 := alErase_length p.1 p.2 m₂ hp
    have hnd₁' : (alKeys rest).Nodup := (List.nodup_cons.mp hnd₁).2
    have hpmem : p.1 ∉ alKeys rest := (List.nodup_cons.mp hnd₁).1
    have hrec := ih (alErase p.1 m₂) hnd₁' (alKeys_erase_nodup p.1 m₂ hnd₂) ?_
    · simp [hlen, hrec]
    · intro k
      rw [alLookup_erase p.1 k m₂ hnd₂]
      by_cases hk : k = p.1
      · rw [if_pos hk, hk]
        exact (alLookup_eq_none_iff p.1 rest).mpr hpmem
      · rw [if_neg hk]
        have := hl k
        simp only [alLookup, if_neg (fun he : p.1 = k => hk he.symm)] at this
        exact this

omit [DecidableEq κ] in
theorem alKeys_filter_sublist (m : List (κ × α)) (P : κ × α → Bool) :
    (alKeys (m.filter P)).Sublist (alKeys m) :=
  List.Sublist.map Prod.fst (List.filter_sublist m)

omit [DecidableEq κ] in
theorem alKeys_filter_nodup (m : List (κ × α)) (P : κ × α → Bool)
    (hnd : (alKeys m).Nodup) : (alKeys (m.filter P)).Nodup :=
  (alKeys_filter_sublist m P).nodup hnd

/-- With duplicate-free keys, a stored pair is found by its own key. -/
theorem alLookup_of_mem (m : List (κ × α)) (p : κ × α)
    (hnd : (alKeys m).Nodup) (hmem : p ∈ m) : alLookup p.1 m = some p.2 := by
  induction m with
  | nil => simp at hmem
  | cons q rest ih =>
    have hnd' : (alKeys rest).Nodup := (List.nodup_cons.mp hnd).2
    have hqmem : q.1 ∉ alKeys rest := (List.nodup_cons.mp hnd).1
    rcases List.mem_cons.mp hmem with he | hm
    · subst he
      simp [alLookup]
    · have hne : q.1 ≠ p.1 := by
        intro he
        exact hqmem (he ▸ List.mem_map_of_mem Prod.fst hm)
      simp only [alLookup, if_neg hne]
      exact ih hnd' hm

theorem alKeys_set_cases (k : κ) (v : α) (m : List (κ × α)) :
    alKeys (alSet k v m) = alKeys m ∨
      alKeys (alSet k v m) = alKeys m ++ [k] := by
  rcases hk : alLookup k m with _ | w
  · right
    rw [alSet_absent k v m hk]
    simp [alKeys]
  · left
    exact alKeys_set_present k v w m hk

/-- A map with a stored binding is a permutation of that binding put in
front of the map without it. -/
theorem alErase_cons_perm (k : κ) (v : α) (m : List (κ × α))
    (h : alLookup k m = some v) : List.Perm m ((k, v) :: alErase k m) := by
  induction m with
  | nil => simp [alLookup] at h
  | cons p rest ih =>
    rcases p with ⟨pk, pv⟩
    by_cases hp : pk = k
    · subst hp
      simp only [alLookup, if_pos rfl] at h
      have hv : pv = v := by simpa using h
      subst hv
      simp [alErase]
    · simp only [alLookup, if_neg hp] at h
      simp only [alErase, if_neg hp]
      exact (List.Perm.cons (pk, pv) (ih h)).trans (List.Perm.swap _ _ _)

/-- Two association lists with duplicate-free keys and the same lookups are
permutations of each other. -/
theorem alPerm_of_lookup_eq : ∀ (m₁ m₂ : List (κ × α)),
    (alKeys m₁).Nodup → (alKeys m₂).Nodup →
    (∀ k, alLookup k m₁ = alLookup k m₂) → List.Perm m₁ m₂ := by
  intro m₁
  induction m₁ with
  | nil =>
    intro m₂ _ _ hl
    cases m₂ with
    | nil => exact List.Perm.refl []
    | cons p rest =>
      have := hl p.1
      simp [alLookup] at this
  | cons p rest ih =>
    intro m₂ hnd₁ hnd₂ hl
    rcases p with ⟨pk, pv⟩
    have hp : alLookup pk m₂ = some pv := by
      have := hl pk
      simp only [alLookup, if_pos rfl] at this
      exact this.symm
    have hnd₁' : (alKeys rest).Nodup := (List.nodup_cons.mp hnd₁).2
    have hpmem : pk ∉ alKeys rest := (List.nodup_cons.mp hnd₁).1
    have hrec := ih (alErase pk m₂) hnd₁' (alKeys_erase_nodup pk m₂ hnd₂) ?_
    · exact (List.Perm.cons (pk, pv) hrec).trans
        (alErase_cons_perm pk pv m₂ hp).symm
    · intro k
      rw [alLookup_erase pk k m₂ hnd₂]
      by_cases hk : k = pk
      · rw [if_pos hk, hk]
        exact (alLookup_eq_none_iff pk rest).mpr hpmem
      · rw [if_neg hk]
        have := hl k
        simp only [alLookup, if_neg (fun he : pk = k => hk he.symm)] at this
        exact this

/-- Lookup in a filtered association list, when the keys are duplicate-free. -/
theorem alLookup_filter (k : κ) (m : List (κ × α)) (P : κ × α → Bool)
    (hnd : (alKeys m).Nodup) :
    alLookup k (m.filter P) =
      (alLookup k m).bind (fun v => if P (k, v) then some v else none) := by
  induction m with
  | nil => simp [alLookup]
  | cons p rest ih =>
    rcases p with ⟨pk, pv⟩
    have hnd' : (alKeys rest).Nodup := (List.nodup_cons.mp hnd).2
    have hpmem : pk ∉ alKeys rest := (List.nodup_cons.mp hnd).1
    by_cases hp : pk = k
    · subst hp
      have hrest : alLookup pk (rest.filter P) = none := by
        rw [alLookup_eq_none_iff]
        intro hmem
        exact hpmem ((alKeys_filter_sublist rest P).subset hmem)
      by_cases hP : P (pk, pv)
      · simp [List.filter_cons, hP, alLookup]
      · rw [List.filter_cons, if_neg hP, hrest]
        simp [alLookup, hP]
    · by_cases hP : P (pk, pv)
      · simp [List.filter_cons, hP, alLookup, hp, ih hnd']
      · simp [List.filter_cons, hP, alLookup, hp, ih hnd']

end AList

/-! ### Resource algebra and task statuses -/

/-- Modelled from the spec: the resource type (pkg/scheduler/api/resource_info.go
is not part of the provided sources).  A vector over named scalar dimensions,
restricted to the three dimensions the specified behaviour reads (cpu, memory,
GPU); scalars are embedded as integers. -/
structure Resource where
  cpu : Int
  memory : Int
  gpu : Int
  deriving DecidableEq, Repr

/-- Modelled from the spec: the zero resource vector (EmptyResource). -/
def EmptyResource : Resource := { cpu := 0, memory := 0, gpu := 0 }

/-- Modelled from the spec: componentwise addition (Resource.Add). -/
def Resource.Add (r o : Resource) : Resource :=
  { cpu := r.cpu + o.cpu, memory := r.memory + o.memory, gpu := r.gpu + o.gpu }

/-- Modelled from the spec: componentwise subtraction (Resource.Sub); the
caller guarantees the subtrahend is dominated by the minuend, so exact
subtraction is the faithful model. -/
def Resource.Sub (r o : Resource) : Resource :=
  { cpu := r.cpu - o.cpu, memory := r.memory - o.memory, gpu := r.gpu - o.gpu }

/-- Modelled from the spec: Resource.Clone returns a copy (value semantics). -/
def Resource.CloneR (r : Resource) : Resource :=
  { cpu := r.cpu, memory := r.memory, gpu := r.gpu }

theorem Resource.CloneR_eq (r : Resource) : r.CloneR = r := rfl

/-- Modelled from the spec: the finite task status enumeration. -/
inductive TaskStatus where
  | Pending
  | Allocated
  | Pipelined
  | Binding
  | Bound
  | Running
  | Releasing
  | Succeeded
  | Failed
  | Unknown
  deriving DecidableEq, Repr

/-- Modelled from the spec: AllocatedStatus holds exactly for Allocated,
Pipelined, Binding, Bound and Running. -/
def AllocatedStatus : TaskStatus → Bool
  | .Allocated | .Pipelined | .Binding | .Bound | .Running => true
  | _ => false

/-! ### Task and job model (pkg/scheduler/api/job_info.go) -/

/-- TaskID (a Kubernetes UID) is embedded as a string. -/
abbrev TaskID := String

/-- JobID is embedded as a string. -/
abbrev JobID := String

/-- TaskInfo from job_info.go.  The backing pod pointer is external cluster
state and is dropped from the embedding; every other field is kept. -/
structure TaskInfo where
  uid : TaskID
  job : JobID
  name : String
  namesp : String
  resreq : Resource
  initResreq : Resource
  nodeName : String
  status : TaskStatus
  priority : Int
  volumeReady : Bool
  deriving DecidableEq, Repr

/-- TaskInfo.Clone: a fresh copy of every field, the resource fields through
Resource Clone. -/
def TaskInfo.Clone (ti : TaskInfo) : TaskInfo :=
  { uid := ti.uid
    job := ti.job
    name := ti.name
    namesp := ti.namesp
    nodeName := ti.nodeName
    status := ti.status
    priority := ti.priority
    resreq := ti.resreq.CloneR
    initResreq := ti.initResreq.CloneR
    volumeReady := ti.volumeReady }

theorem TaskInfo.Clone_eq (ti : TaskInfo) : ti.Clone = ti := rfl

/-- The `tasksMap` type of job_info.go (map from task id to task). -/
def tasksMap := List (TaskID × TaskInfo)

/-- JobInfo from job_info.go.  The PodGroup / PDB bindings, creation
timestamp, queue, priority and node selector play no role in the specified
behaviour of the covered functions and are dropped; `NodesFitDelta` maps a
node name to the recorded fit delta. -/
structure JobInfo where
  uid : JobID
  name : String
  namesp : String
  minAvailable : Int
  nodesFitDelta : List (String × Resource)
  taskStatusIndex : List (TaskStatus × List (TaskID × TaskInfo))
  tasks : List (TaskID × TaskInfo)
  allocated : Resource
  totalRequest : Resource
  deriving DecidableEq, Repr

/-- The status bucket of a job for a given status (empty when absent). -/
def JobInfo.bucket (ji : JobInfo) (s : TaskStatus) : List (TaskID × TaskInfo) :=
  (alLookup s ji.taskStatusIndex).getD []

/-- addTaskIndex: create the status bucket when missing, then store the task
in it under its uid. -/
def JobInfo.addTaskIndex (ji : JobInfo) (ti : TaskInfo) : JobInfo :=
  { ji with
    taskStatusIndex :=
      alSet ti.status (alSet ti.uid ti (ji.bucket ti.status)) ji.taskStatusIndex }

/-- AddTaskInfo: store the task under its uid, index it by status, add its
request to TotalRequest, and to Allocated when its status is allocated. -/
def JobInfo.AddTaskInfo (ji : JobInfo) (ti : TaskInfo) : JobInfo :=
  let ji' := { ji with tasks := alSet ti.uid ti ji.tasks }.addTaskIndex ti
  { ji' with
    totalRequest := ji'.totalRequest.Add ti.resreq
    allocated :=
      if AllocatedStatus ti.status then ji'.allocated.Add ti.resreq
      else ji'.allocated }

/-- deleteTaskIndex: when the bucket of the stored status exists, remove the
task from it, and drop the bucket entirely when it became empty. -/
def JobInfo.deleteTaskIndex (ji : JobInfo) (ti : TaskInfo) : JobInfo :=
  match alLookup ti.status ji.taskStatusIndex with
  | none => ji
  | some b =>
    let b' := alErase ti.uid b
    if b'.length = 0 then
      { ji with taskStatusIndex := alErase ti.status ji.taskStatusIndex }
    else
      { ji with taskStatusIndex := alSet ti.status b' ji.taskStatusIndex }

/-- DeleteTaskInfo: when a task with the given uid is stored, subtract the
stored request from the aggregates, delete the stored task and unindex it;
otherwise report an error. -/
def JobInfo.DeleteTaskInfo (ji : JobInfo) (ti : TaskInfo) :
    Except String JobInfo :=
  match alLookup ti.uid ji.tasks with
  | some task =>
    let ji' :=
      { ji with
        totalRequest := ji.totalRequest.Sub task.resreq
        allocated :=
          if AllocatedStatus task.status then ji.allocated.Sub task.resreq
          else ji.allocated
        tasks := alErase task.uid ji.tasks }
    .ok (ji'.deleteTaskIndex task)
  | none =>
    .error ("failed to find task <" ++ ti.namesp ++ "/" ++ ti.name ++
      "> in job <" ++ ji.namesp ++ "/" ++ ji.name ++ ">")

/-- Modelled from the spec: validateStatusUpdate (job_info.go refers to it but
its transition table is not part of the provided sources and the spec does not
enumerate the legal transitions; every claim about UpdateTaskStatus conditions
on the update succeeding, so validation is embedded as always succeeding). -/
def validateStatusUpdate (_oldStatus _newStatus : TaskStatus) :
    Except String Unit := .ok ()

/-- UpdateTaskStatus: validate, remove the task (the deletion error is
discarded by the source), set the new status on the argument task and re-add
it. -/
def JobInfo.UpdateTaskStatus (ji : JobInfo) (task : TaskInfo)
    (status : TaskStatus) : Except String JobInfo :=
  match validateStatusUpdate task.status status with
  | .error e => .error e
  | .ok _ =>
    let ji1 := match ji.DeleteTaskInfo task with
      | .ok j => j
      | .error _ => ji
    .ok (ji1.AddTaskInfo { task with status := status })

/-- SetPodGroup, restricted to the fields the embedding keeps: name,
namespace and MinAvailable (the PodGroup binding, queue and creation
timestamp play no role in the covered behaviour). -/
def JobInfo.SetPodGroup (ji : JobInfo) (name namesp : String)
    (minMember : Int) : JobInfo :=
  { ji with name := name, namesp := namesp, minAvailable := minMember }

/-- The empty job built by NewJobInfo before the initial tasks are added. -/
def emptyJobInfo (uid : JobID) : JobInfo :=
  { uid := uid
    name := ""
    namesp := ""
    minAvailable := 0
    nodesFitDelta := []
    allocated := EmptyResource
    totalRequest := EmptyResource
    taskStatusIndex := []
    tasks := [] }

/-- NewJobInfo: start from the empty job and AddTaskInfo every given task. -/
def NewJobInfo (uid : JobID) (tasks : List TaskInfo) : JobInfo :=
  tasks.foldl (fun ji t => ji.AddTaskInfo t) (emptyJobInfo uid)

/-- JobInfo.Clone: copy the scalar fields, reset the task table, the status
index, NodesFitDelta and the aggregates, then AddTaskInfo a clone of every
stored task (the Go source ranges over the task map in unspecified order; the
embedding folds in list order, and every property proved about the clone is
order-insensitive). -/
def JobInfo.Clone (ji : JobInfo) : JobInfo :=
  ji.tasks.foldl (fun acc p => acc.AddTaskInfo p.2.Clone)
    { uid := ji.uid
      name := ji.name
      namesp := ji.namesp
      minAvailable := ji.minAvailable
      nodesFitDelta := []
      allocated := EmptyResource
      totalRequest := EmptyResource
      taskStatusIndex := []
      tasks := [] }

/-! ### FitError summarization (job_info.go) -/

/-- Increment the counter stored under a reason key (Go map increment). -/
def incrReason (k : String) (m : List (String × Nat)) : List (String × Nat) :=
  alSet k ((alLookup k m).getD 0 + 1) m

/-- The body of the per-node reason counting loop of FitError: count the
node under every dimension whose recorded delta is negative. -/
def fitFoldStep (m : List (String × Nat)) (p : String × Resource) :
    List (String × Nat) :=
  let m1 := if p.2.cpu < 0 then incrReason "cpu" m else m
  let m2 := if p.2.memory < 0 then incrReason "memory" m1 else m1
  if p.2.gpu < 0 then incrReason "GPU" m2 else m2

/-- The per-node reason counting loop of FitError, starting from the empty
reason map. -/
def fitReasons (deltas : List (String × Resource)) : List (String × Nat) :=
  deltas.foldl fitFoldStep []

/-- Lexicographic comparison of character lists by codepoint. -/
def lexLe : List Char → List Char → Bool
  | [], _ => true
  | _ :: _, [] => false
  | a :: as, b :: bs =>
    if a.val.toNat < b.val.toNat then true
    else if b.val.toNat < a.val.toNat then false
    else lexLe as bs

/-- Lexicographic string comparison.  Go sort.Strings compares byte wise; the
reason strings produced by FitError are ASCII, where byte order and codepoint
order coincide. -/
def strLeB (a b : String) : Bool := lexLe a.data b.data

/-- The order relation used to sort the reason strings. -/
def strLeRel (a b : String) : Prop := strLeB a b = true

instance : DecidableRel strLeRel :=
  fun a b => inferInstanceAs (Decidable (strLeB a b = true))

/-- Lexicographic sorting of the reason strings (sort.Strings). -/
def sortStrings (l : List String) : List String :=
  l.insertionSort strLeRel

theorem lexLe_total : ∀ as bs, lexLe as bs = true ∨ lexLe bs as = true := by
  intro as
  induction as with
  | nil => intro bs; left; simp [lexLe]
  | cons a as ih =>
    intro bs
    cases bs with
    | nil => right; simp [lexLe]
    | cons b bs =>
      by_cases h1 : a.val.toNat < b.val.toNat
      · left; simp [lexLe, h1]
      · by_cases h2 : b.val.toNat < a.val.toNat
        · right; simp [lexLe, h2]
        · rcases ih bs with h | h
          · left; simp [lexLe, h1, h2, h]
          · right; simp [lexLe, h1, h2, h]

theorem lexLe_cons_iff (a b : Char) (as bs : List Char) :
    lexLe (a :: as) (b :: bs) = true ↔
      a.val.toNat < b.val.toNat ∨
        (a.val.toNat = b.val.toNat ∧ lexLe as bs = true) := by
  by_cases h1 : a.val.toNat < b.val.toNat
  · simp [lexLe, h1]
  · by_cases h2 : b.val.toNat < a.val.toNat
    · simp only [lexLe, if_neg h1, if_pos h2]
      constructor
      · intro h
        exact absurd h (by simp)
      · rintro (h | ⟨he, -⟩) <;> omega
    · have he : a.val.toNat = b.val.toNat := by omega
      simp only [lexLe, if_neg h1, if_neg h2]
      constructor
      · intro h
        exact Or.inr ⟨he, h⟩
      · rintro (h | ⟨-, h⟩)
        · omega
        · exact h

theorem lexLe_trans : ∀ as bs cs, lexLe as bs = true → lexLe bs cs = true →
    lexLe as cs = true := by
  intro as
  induction as with
  | nil => intro bs cs _ _; simp [lexLe]
  | cons a as ih =>
    intro bs cs hab hbc
    cases bs with
    | nil => simp [lexLe] at hab
    | cons b bs =>
      cases cs with
      | nil => simp [lexLe] at hbc
      | cons c cs =>
        rw [lexLe_cons_iff] at hab hbc ⊢
        rcases hab with h | ⟨he1, hr1⟩
        · rcases hbc with h2 | ⟨he2, -⟩
          · exact Or.inl (by omega)
          · exact Or.inl (by omega)
        · rcases hbc with h2 | ⟨he2, hr2⟩
          · exact Or.inl (by omega)
          · exact Or.inr ⟨by omega, ih bs cs hr1 hr2⟩

theorem lexLe_antisymm : ∀ as bs, lexLe as bs = true → lexLe bs as = true →
    as = bs := by
  intro as
  induction as with
  | nil =>
    intro bs _ hba
    cases bs with
    | nil => rfl
    | cons b bs => simp [lexLe] at hba
  | cons a as ih =>
    intro bs hab hba
    cases bs with
    | nil => simp [lexLe] at hab
    | cons b bs =>
      rw [lexLe_cons_iff] at hab hba
      rcases hab with h | ⟨he1, hr1⟩
      · rcases hba with h2 | ⟨he2, -⟩ <;> omega
      · rcases hba with h2 | ⟨he2, hr2⟩
        · omega
        · have hchar : a = b := Char.ext (UInt32.toNat.inj he1)
          rw [hchar, ih bs hr1 hr2]

theorem strLeB_data_eq (a b : String) (h : a.data = b.data) : a = b := by
  cases a
  cases b
  exact congrArg String.mk h

instance : IsTotal String strLeRel :=
  ⟨fun a b => lexLe_total a.data b.data⟩

instance : IsTrans String strLeRel :=
  ⟨fun a b c => lexLe_trans a.data b.data c.data⟩

instance : IsAntisymm String strLeRel :=
  ⟨fun a b hab hba => strLeB_data_eq a b (lexLe_antisymm a.data b.data hab hba)⟩

/-- Sorting is invariant under permutation of the input. -/
theorem sortStrings_eq_of_perm (l₁ l₂ : List String)
    (h : List.Perm l₁ l₂) : sortStrings l₁ = sortStrings l₂ :=
  List.eq_of_perm_of_sorted
    (((List.perm_insertionSort strLeRel l₁).trans h).trans
      (List.perm_insertionSort strLeRel l₂).symm)
    (List.sorted_insertionSort strLeRel l₁)
    (List.sorted_insertionSort strLeRel l₂)

/-- FitError: no recorded deltas gives a fixed message; otherwise the nodes
with a negative delta are counted per reason and the reason strings are
emitted sorted and comma separated. -/
def JobInfo.FitError (ji : JobInfo) : String :=
  if ji.nodesFitDelta.length = 0 then "0 nodes are available"
  else
    let reasonStrings :=
      (fitReasons ji.nodesFitDelta).map
        (fun p => toString p.2 ++ " insufficient " ++ p.1)
    "0/" ++ toString ji.nodesFitDelta.length ++ " nodes are available, " ++
      String.intercalate ", " (sortStrings reasonStrings) ++ "."

/-- What the reason map holds after counting: the three dimension counters,
each present exactly when nonzero, and nothing else. -/
def ReasonsSpec (m : List (String × Nat)) (c1 c2 c3 : Nat) : Prop :=
  alLookup "cpu" m = (if 0 < c1 then some c1 else none) ∧
  alLookup "memory" m = (if 0 < c2 then some c2 else none) ∧
  alLookup "GPU" m = (if 0 < c3 then some c3 else none) ∧
  (∀ k, k ≠ "cpu" → k ≠ "memory" → k ≠ "GPU" → alLookup k m = none) ∧
  (alKeys m).Nodup

theorem alLookup_incr_self (k : String) (m : List (String × Nat)) :
    alLookup k (incrReason k m) = some ((alLookup k m).getD 0 + 1) := by
  simp [incrReason, alLookup_set]

theorem alLookup_incr_ne (k k' : String) (m : List (String × Nat))
    (h : k' ≠ k) : alLookup k' (incrReason k m) = alLookup k' m := by
  simp [incrReason, alLookup_set, h]

theorem getD_count (c : Nat) :
    ((if 0 < c then some c else none) : Option Nat).getD 0 = c := by
  by_cases h : 0 < c
  · simp [h]
  · simp [h]
    omega

theorem step_cpu (m : List (String × Nat)) (p : String × Resource) :
    alLookup "cpu" (fitFoldStep m p) =
      if p.2.cpu < 0 then some ((alLookup "cpu" m).getD 0 + 1)
      else alLookup "cpu" m := by
  have h1 : ("cpu" : String) ≠ "memory" := by decide
  have h2 : ("cpu" : String) ≠ "GPU" := by decide
  unfold fitFoldStep
  by_cases hc : p.2.cpu < 0 <;> by_cases hm : p.2.memory < 0 <;>
    by_cases hg : p.2.gpu < 0 <;>
    simp [hc, hm, hg, alLookup_incr_self, alLookup_incr_ne _ _ _ h1,
      alLookup_incr_ne _ _ _ h2]

theorem step_memory (m : List (String × Nat)) (p : String × Resource) :
    alLookup "memory" (fitFoldStep m p) =
      if p.2.memory < 0 then some ((alLookup "memory" m).getD 0 + 1)
      else alLookup "memory" m := by
  have h1 : ("memory" : String) ≠ "cpu" := by decide
  have h2 : ("memory" : String) ≠ "GPU" := by decide
  unfold fitFoldStep
  by_cases hc : p.2.cpu < 0 <;> by_cases hm : p.2.memory < 0 <;>
    by_cases hg : p.2.gpu < 0 <;>
    simp [hc, hm, hg, alLookup_incr_self, alLookup_incr_ne _ _ _ h1,
      alLookup_incr_ne _ _ _ h2]

theorem step_gpu (m : List (String × Nat)) (p : String × Resource) :
    alLookup "GPU" (fitFoldStep m p) =
      if p.2.gpu < 0 then some ((alLookup "GPU" m).getD 0 + 1)
      else alLookup "GPU" m := by
  have h1 : ("GPU" : String) ≠ "cpu" := by decide
  have h2 : ("GPU" : String) ≠ "memory" := by decide
  unfold fitFoldStep
  by_cases hc : p.2.cpu < 0 <;> by_cases hm : p.2.memory < 0 <;>
    by_cases hg : p.2.gpu < 0 <;>
    simp [hc, hm, hg, alLookup_incr_self, alLookup_incr_ne _ _ _ h1,
      alLookup_incr_ne _ _ _ h2]

theorem step_other (m : List (String × Nat)) (p : String × Resource)
    (k : String) (h1 : k ≠ "cpu") (h2 : k ≠ "memory") (h3 : k ≠ "GPU") :
    alLookup k (fitFoldStep m p) = alLookup k m := by
  unfold fitFoldStep
  by_cases hc : p.2.cpu < 0 <;> by_cases hm : p.2.memory < 0 <;>
    by_cases hg : p.2.gpu < 0 <;>
    simp [hc, hm, hg, alLookup_incr_ne _ _ _ h1, alLookup_incr_ne _ _ _ h2,
      alLookup_incr_ne _ _ _ h3]

theorem step_nodup (m : List (String × Nat)) (p : String × Resource)
    (h : (alKeys m).Nodup) : (alKeys (fitFoldStep m p)).Nodup := by
  unfold fitFoldStep incrReason
  by_cases hc : p.2.cpu < 0 <;> by_cases hm : p.2.memory < 0 <;>
    by_cases hg : p.2.gpu < 0 <;>
    simp only [hc, hm, hg, if_true, if_false] <;>
    repeat' apply alKeys_set_nodup
  all_goals exact h

theorem reasonsSpec_step (m : List (String × Nat)) (p : String × Resource)
    (c1 c2 c3 : Nat) (h : ReasonsSpec m c1 c2 c3) :
    ReasonsSpec (fitFoldStep m p)
      (c1 + if p.2.cpu < 0 then 1 else 0)
      (c2 + if p.2.memory < 0 then 1 else 0)
      (c3 + if p.2.gpu < 0 then 1 else 0) := by
  obtain ⟨hc, hm, hg, ho, hn⟩ := h
  refine ⟨?_, ?_, ?_, ?_, step_nodup m p hn⟩
  · by_cases h1 : p.2.cpu < 0 <;> simp [step_cpu, h1, hc, getD_count]
  · by_cases h1 : p.2.memory < 0 <;> simp [step_memory, h1, hm, getD_count]
  · by_cases h1 : p.2.gpu < 0 <;> simp [step_gpu, h1, hg, getD_count]
  · intro k hk1 hk2 hk3
    rw [step_other m p k hk1 hk2 hk3]
    exact ho k hk1 hk2 hk3

theorem fitFold_spec : ∀ (ds : List (String × Resource))
    (m : List (String × Nat)) (c1 c2 c3 : Nat),
    ReasonsSpec m c1 c2 c3 →
    ReasonsSpec (ds.foldl fitFoldStep m)
      (c1 + ds.countP (fun p => decide (p.2.cpu < 0)))
      (c2 + ds.countP (fun p => decide (p.2.memory < 0)))
      (c3 + ds.countP (fun p => decide (p.2.gpu < 0))) := by
  intro ds
  induction ds with
  | nil =>
    intro m c1 c2 c3 h
    simpa using h
  | cons d ds ih =>
    intro m c1 c2 c3 h
    have hrec := ih (fitFoldStep m d) _ _ _ (reasonsSpec_step m d c1 c2 c3 h)
    have e1 : c1 + (if d.2.cpu < 0 then 1 else 0) +
        ds.countP (fun p => decide (p.2.cpu < 0)) =
        c1 + (d :: ds).countP (fun p => decide (p.2.cpu < 0)) := by
      rw [List.countP_cons]
      by_cases h1 : d.2.cpu < 0
      · simp [h1]
        omega
      · simp [h1]
    have e2 : c2 + (if d.2.memory < 0 then 1 else 0) +
        ds.countP (fun p => decide (p.2.memory < 0)) =
        c2 + (d :: ds).countP (fun p => decide (p.2.memory < 0)) := by
      rw [List.countP_cons]
      by_cases h1 : d.2.memory < 0
      · simp [h1]
        omega
      · simp [h1]
    have e3 : c3 + (if d.2.gpu < 0 then 1 else 0) +
        ds.countP (fun p => decide (p.2.gpu < 0)) =
        c3 + (d :: ds).countP (fun p => decide (p.2.gpu < 0)) := by
      rw [List.countP_cons]
      by_cases h1 : d.2.gpu < 0
      · simp [h1]
        omega
      · simp [h1]
    rw [← e1, ← e2, ← e3]
    simpa using hrec

/-- The reason counts produced by the FitError loop. -/
theorem fitReasons_spec (ds : List (String × Resource)) :
    ReasonsSpec (fitReasons ds)
      (ds.countP (fun p => decide (p.2.cpu < 0)))
      (ds.countP (fun p => decide (p.2.memory < 0)))
      (ds.countP (fun p => decide (p.2.gpu < 0))) := by
  have hempty : ReasonsSpec [] 0 0 0 := by
    refine ⟨?_, ?_, ?_, ?_, ?_⟩ <;> simp [alLookup, alKeys]
  simpa [fitReasons] using fitFold_spec ds [] 0 0 0 hempty

/-- The reason map written out: one entry per dimension with a nonzero
count, cpu then memory then GPU. -/
def canonicalReasons (c1 c2 c3 : Nat) : List (String × Nat) :=
  (if 0 < c1 then [("cpu", c1)] else []) ++
    (if 0 < c2 then [("memory", c2)] else []) ++
    (if 0 < c3 then [("GPU", c3)] else [])

theorem canonical_spec (c1 c2 c3 : Nat) :
    ReasonsSpec (canonicalReasons c1 c2 c3) c1 c2 c3 := by
  have hcm : ("cpu" : String) ≠ "memory" := by decide
  have hcg : ("cpu" : String) ≠ "GPU" := by decide
  have hmc : ("memory" : String) ≠ "cpu" := by decide
  have hmg : ("memory" : String) ≠ "GPU" := by decide
  have hgc : ("GPU" : String) ≠ "cpu" := by decide
  have hgm : ("GPU" : String) ≠ "memory" := by decide
  refine ⟨?_, ?_, ?_, ?_, ?_⟩
  · by_cases h1 : 0 < c1 <;> by_cases h2 : 0 < c2 <;> by_cases h3 : 0 < c3 <;>
      simp [canonicalReasons, h1, h2, h3, alLookup, hmc, hgc]
  · by_cases h1 : 0 < c1 <;> by_cases h2 : 0 < c2 <;> by_cases h3 : 0 < c3 <;>
      simp [canonicalReasons, h1, h2, h3, alLookup, hcm, hgm]
  · by_cases h1 : 0 < c1 <;> by_cases h2 : 0 < c2 <;> by_cases h3 : 0 < c3 <;>
      simp [canonicalReasons, h1, h2, h3, alLookup, hcg, hmg]
  · intro k hk1 hk2 hk3
    have h1 : ("cpu" : String) ≠ k := fun he => hk1 he.symm
    have h2 : ("memory" : String) ≠ k := fun he => hk2 he.symm
    have h3 : ("GPU" : String) ≠ k := fun he => hk3 he.symm
    by_cases hc1 : 0 < c1 <;> by_cases hc2 : 0 < c2 <;> by_cases hc3 : 0 < c3 <;>
      simp [canonicalReasons, hc1, hc2, hc3, alLookup, h1, h2, h3]
  · by_cases h1 : 0 < c1 <;> by_cases h2 : 0 < c2 <;> by_cases h3 : 0 < c3 <;>
      simp [canonicalReasons, h1, h2, h3, alKeys, hcm, hcg, hmg]

/-- The reason map built by the loop is the canonical reason list up to
order. -/
theorem fitReasons_perm (ds : List (String × Resource)) :
    List.Perm (fitReasons ds)
      (canonicalReasons
        (ds.countP (fun p => decide (p.2.cpu < 0)))
        (ds.countP (fun p => decide (p.2.memory < 0)))
        (ds.countP (fun p => decide (p.2.gpu < 0)))) := by
  have f := fitReasons_spec ds
  have g := canonical_spec
    (ds.countP (fun p => decide (p.2.cpu < 0)))
    (ds.countP (fun p => decide (p.2.memory < 0)))
    (ds.countP (fun p => decide (p.2.gpu < 0)))
  refine alPerm_of_lookup_eq _ _ f.2.2.2.2 g.2.2.2.2 ?_
  intro k
  by_cases h1 : k = "cpu"
  · subst h1
    rw [f.1, g.1]
  · by_cases h2 : k = "memory"
    · subst h2
      rw [f.2.1, g.2.1]
    · by_cases h3 : k = "GPU"
      · subst h3
        rw [f.2.2.1, g.2.2.1]
      · rw [f.2.2.2.1 k h1 h2 h3, g.2.2.2.1 k h1 h2 h3]

/-! ### Structural invariants of the job model -/

/-- The componentwise sum of the task requests stored in a task map. -/
def sumResreq (ts : List (TaskID × TaskInfo)) : Resource :=
  { cpu := (ts.map fun p => p.2.resreq.cpu).sum
    memory := (ts.map fun p => p.2.resreq.memory).sum
    gpu := (ts.map fun p => p.2.resreq.gpu).sum }

theorem Resource.eq_of_fields {a b : Resource} (h1 : a.cpu = b.cpu)
    (h2 : a.memory = b.memory) (h3 : a.gpu = b.gpu) : a = b := by
  cases a; cases b; simp_all

theorem sumResreq_append_single (ts : List (TaskID × TaskInfo))
    (k : TaskID) (t : TaskInfo) :
    sumResreq (ts ++ [(k, t)]) = (sumResreq ts).Add t.resreq := by
  refine Resource.eq_of_fields ?_ ?_ ?_ <;> simp [sumResreq, Resource.Add]

/-- A filtered additive aggregate equals the unfiltered aggregate of the
pointwise guarded function. -/
theorem filter_map_sum (ts : List (TaskID × TaskInfo))
    (P : TaskID × TaskInfo → Bool) (g : TaskID × TaskInfo → Int) :
    ((ts.filter P).map g).sum =
      (ts.map fun p => if P p then g p else 0).sum := by
  induction ts with
  | nil => simp
  | cons p rest ih =>
    by_cases hP : P p <;> simp [List.filter_cons, hP, ih]

/-- Well-formedness of a job: duplicate-free map keys, key and index
consistency, and aggregate consistency.  Every job the covered operations can
build satisfies it (theorem `reach_wf`). -/
structure WF (ji : JobInfo) : Prop where
  tasksNodup : (alKeys ji.tasks).Nodup
  idxNodup : (alKeys ji.taskStatusIndex).Nodup
  bucketNodup : ∀ s, (alKeys (ji.bucket s)).Nodup
  keyConsistent : ∀ uid t, alLookup uid ji.tasks = some t → t.uid = uid
  coh : ∀ s uid, alLookup uid (ji.bucket s) =
    (alLookup uid ji.tasks).bind (fun t => if t.status = s then some t else none)
  aggT : ji.totalRequest = sumResreq ji.tasks
  aggA : ji.allocated =
    sumResreq (ji.tasks.filter fun p => AllocatedStatus p.2.status)

theorem addTaskInfo_tasks (ji : JobInfo) (ti : TaskInfo) :
    (ji.AddTaskInfo ti).tasks = alSet ti.uid ti ji.tasks := rfl

theorem addTaskInfo_index (ji : JobInfo) (ti : TaskInfo) :
    (ji.AddTaskInfo ti).taskStatusIndex =
      alSet ti.status (alSet ti.uid ti (ji.bucket ti.status))
        ji.taskStatusIndex := rfl

theorem addTaskInfo_total (ji : JobInfo) (ti : TaskInfo) :
    (ji.AddTaskInfo ti).totalRequest = ji.totalRequest.Add ti.resreq := rfl

theorem addTaskInfo_allocated (ji : JobInfo) (ti : TaskInfo) :
    (ji.AddTaskInfo ti).allocated =
      if AllocatedStatus ti.status then ji.allocated.Add ti.resreq
      else ji.allocated := rfl

theorem addTaskInfo_bucket (ji : JobInfo) (ti : TaskInfo) (s : TaskStatus) :
    (ji.AddTaskInfo ti).bucket s =
      if s = ti.status then alSet ti.uid ti (ji.bucket ti.status)
      else ji.bucket s := by
  unfold JobInfo.bucket
  rw [addTaskInfo_index, alLookup_set]
  by_cases h : s = ti.status <;> simp [h, JobInfo.bucket]

/-- Adding a task with a fresh uid preserves well-formedness. -/
theorem wf_add (ji : JobInfo) (ti : TaskInfo) (h : WF ji)
    (hfresh : alLookup ti.uid ji.tasks = none) : WF (ji.AddTaskInfo ti) := by
  have htasks : (ji.AddTaskInfo ti).tasks = ji.tasks ++ [(ti.uid, ti)] := by
    rw [addTaskInfo_tasks, alSet_absent ti.uid ti ji.tasks hfresh]
  refine ⟨?_, ?_, ?_, ?_, ?_, ?_, ?_⟩
  · rw [addTaskInfo_tasks]
    exact alKeys_set_nodup ti.uid ti ji.tasks h.tasksNodup
  · rw [addTaskInfo_index]
    exact alKeys_set_nodup _ _ _ h.idxNodup
  · intro s
    rw [addTaskInfo_bucket]
    by_cases hs : s = ti.status
    · rw [if_pos hs]
      exact alKeys_set_nodup _ _ _ (h.bucketNodup ti.status)
    · rw [if_neg hs]
      exact h.bucketNodup s
  · intro uid t hl
    rw [addTaskInfo_tasks, alLookup_set] at hl
    by_cases hu : uid = ti.uid
    · rw [if_pos hu] at hl
      cases hl
      exact hu.symm
    · rw [if_neg hu] at hl
      exact h.keyConsistent uid t hl
  · intro s uid
    rw [addTaskInfo_bucket, addTaskInfo_tasks, alLookup_set]
    by_cases hs : s = ti.status
    · subst hs
      rw [if_pos rfl, alLookup_set]
      by_cases hu : uid = ti.uid
      · simp [hu]
      · rw [if_neg hu, if_neg hu, h.coh]
    · rw [if_neg hs]
      by_cases hu : uid = ti.uid
      · subst hu
        rw [if_pos rfl, h.coh, hfresh]
        simp only [Option.none_bind, Option.some_bind]
        rw [if_neg (fun he : ti.status = s => hs he.symm)]
      · rw [if_neg hu, h.coh]
  · rw [addTaskInfo_total, htasks, sumResreq_append_single, h.aggT]
  · rw [addTaskInfo_allocated, htasks, List.filter_append]
    by_cases ha : AllocatedStatus ti.status
    · simp only [List.filter_cons, ha, if_true, List.filter_nil]
      rw [sumResreq_append_single, h.aggA]
    · simp only [List.filter_cons, ha, Bool.false_eq_true, if_false,
        List.filter_nil, List.append_nil]
      rw [h.aggA]

theorem sumResreq_erase (ts : List (TaskID × TaskInfo)) (k : TaskID)
    (t : TaskInfo) (hl : alLookup k ts = some t) :
    sumResreq (alErase k ts) = (sumResreq ts).Sub t.resreq := by
  have hc := alErase_map_sum k t ts (fun p => p.2.resreq.cpu) hl
  have hm := alErase_map_sum k t ts (fun p => p.2.resreq.memory) hl
  have hg := alErase_map_sum k t ts (fun p => p.2.resreq.gpu) hl
  refine Resource.eq_of_fields ?_ ?_ ?_ <;> simp only [sumResreq, Resource.Sub]
  · linarith
  · linarith
  · linarith

theorem sumResreq_filter_erase (ts : List (TaskID × TaskInfo)) (k : TaskID)
    (t : TaskInfo) (P : TaskID × TaskInfo → Bool)
    (hl : alLookup k ts = some t) (hP : P (k, t) = true) :
    sumResreq ((alErase k ts).filter P) =
      (sumResreq (ts.filter P)).Sub t.resreq := by
  have key : ∀ g : TaskID × TaskInfo → Int,
      (((alErase k ts).filter P).map g).sum =
        ((ts.filter P).map g).sum - g (k, t) := by
    intro g
    have h1 := filter_map_sum (alErase k ts) P g
    have h2 := filter_map_sum ts P g
    have h3 := alErase_map_sum k t ts (fun p => if P p then g p else 0) hl
    rw [h1, h2]
    simp only [hP, if_true] at h3
    linarith
  have hc := key (fun p => p.2.resreq.cpu)
  have hm := key (fun p => p.2.resreq.memory)
  have hg := key (fun p => p.2.resreq.gpu)
  refine Resource.eq_of_fields ?_ ?_ ?_ <;> simp only [sumResreq, Resource.Sub]
  · linarith
  · linarith
  · linarith

theorem sumResreq_filter_erase_not (ts : List (TaskID × TaskInfo)) (k : TaskID)
    (t : TaskInfo) (P : TaskID × TaskInfo → Bool)
    (hl : alLookup k ts = some t) (hP : P (k, t) = false) :
    sumResreq ((alErase k ts).filter P) = sumResreq (ts.filter P) := by
  have key : ∀ g : TaskID × TaskInfo → Int,
      (((alErase k ts).filter P).map g).sum = ((ts.filter P).map g).sum := by
    intro g
    have h1 := filter_map_sum (alErase k ts) P g
    have h2 := filter_map_sum ts P g
    have h3 := alErase_map_sum k t ts (fun p => if P p then g p else 0) hl
    rw [h1, h2]
    simp only [hP, Bool.false_eq_true, if_false] at h3
    linarith
  have hc := key (fun p => p.2.resreq.cpu)
  have hm := key (fun p => p.2.resreq.memory)
  have hg := key (fun p => p.2.resreq.gpu)
  refine Resource.eq_of_fields ?_ ?_ ?_ <;> simp only [sumResreq]
  · linarith
  · linarith
  · linarith

/-- The job after a DeleteTaskInfo call: the deletion error leaves the job
unchanged. -/
def applyDelete (ji : JobInfo) (ti : TaskInfo) : JobInfo :=
  match ji.DeleteTaskInfo ti with
  | .ok j => j
  | .error _ => ji

/-- The job after an UpdateTaskStatus call: a validation error leaves the
job unchanged. -/
def applyUpdate (ji : JobInfo) (task : TaskInfo) (s : TaskStatus) : JobInfo :=
  match ji.UpdateTaskStatus task s with
  | .ok j => j
  | .error _ => ji

theorem applyDelete_none (ji : JobInfo) (ti : TaskInfo)
    (hl : alLookup ti.uid ji.tasks = none) : applyDelete ji ti = ji := by
  simp [applyDelete, JobInfo.DeleteTaskInfo, hl]

/-- Deleting an existing task preserves well-formedness, and the surviving
task table is the old one without the stored binding. -/
theorem wf_delete_some (ji : JobInfo) (ti : TaskInfo) (t : TaskInfo)
    (h : WF ji) (hl : alLookup ti.uid ji.tasks = some t) :
    WF (applyDelete ji ti) ∧
      (applyDelete ji ti).tasks = alErase t.uid ji.tasks := by
  have htu : t.uid = ti.uid := h.keyConsistent ti.uid t hl
  have hlt : alLookup t.uid ji.tasks = some t := by rw [htu]; exact hl
  have hbt : alLookup t.uid (ji.bucket t.status) = some t := by
    rw [h.coh, hlt]
    simp
  rcases hb : alLookup t.status ji.taskStatusIndex with _ | b
  · exfalso
    have : ji.bucket t.status = [] := by simp [JobInfo.bucket, hb]
    rw [this] at hbt
    simp [alLookup] at hbt
  · have hbval : ji.bucket t.status = b := by simp [JobInfo.bucket, hb]
    have hbnd : (alKeys b).Nodup := hbval ▸ h.bucketNodup t.status
    -- the state produced by the deletion, before re-indexing
    set ji' : JobInfo :=
      { ji with
        totalRequest := ji.totalRequest.Sub t.resreq
        allocated :=
          if AllocatedStatus t.status then ji.allocated.Sub t.resreq
          else ji.allocated
        tasks := alErase t.uid ji.tasks } with hji'
    have happly : applyDelete ji ti = ji'.deleteTaskIndex t := by
      simp [applyDelete, JobInfo.DeleteTaskInfo, hl, hji']
    have hidx' : ji'.taskStatusIndex = ji.taskStatusIndex := rfl
    have hbucket : ∀ s, (ji'.deleteTaskIndex t).bucket s =
        if s = t.status then alErase t.uid b else ji.bucket s := by
      intro s
      unfold JobInfo.deleteTaskIndex
      rw [hidx', hb]
      simp only
      by_cases hlen : (alErase t.uid b).length = 0
      · rw [if_pos hlen]
        have hempty : alErase t.uid b = [] := List.length_eq_zero.mp hlen
        by_cases hs : s = t.status
        · subst hs
          simp [JobInfo.bucket, alLookup_erase _ _ _ h.idxNodup, hempty]
        · simp [JobInfo.bucket, alLookup_erase _ _ _ h.idxNodup, hs]
      · rw [if_neg hlen]
        by_cases hs : s = t.status
        · subst hs
          simp [JobInfo.bucket, alLookup_set]
        · simp [JobInfo.bucket, alLookup_set, hs]
    have htasks : (ji'.deleteTaskIndex t).tasks = alErase t.uid ji.tasks := by
      unfold JobInfo.deleteTaskIndex
      rw [hidx', hb]
      simp only
      by_cases hlen : (alErase t.uid b).length = 0 <;> simp [hlen, hji']
    have htotal : (ji'.deleteTaskIndex t).totalRequest =
        ji.totalRequest.Sub t.resreq := by
      unfold JobInfo.deleteTaskIndex
      rw [hidx', hb]
      simp only
      by_cases hlen : (alErase t.uid b).length = 0 <;> simp [hlen, hji']
    have halloc : (ji'.deleteTaskIndex t).allocated =
        if AllocatedStatus t.status then ji.allocated.Sub t.resreq
        else ji.allocated := by
      unfold JobInfo.deleteTaskIndex
      rw [hidx', hb]
      simp only
      by_cases hlen : (alErase t.uid b).length = 0 <;> simp [hlen, hji']
    have hidxnd : (alKeys (ji'.deleteTaskIndex t).taskStatusIndex).Nodup := by
      unfold JobInfo.deleteTaskIndex
      rw [hidx', hb]
      simp only
      by_cases hlen : (alErase t.uid b).length = 0
      · rw [if_pos hlen]
        exact alKeys_erase_nodup _ _ h.idxNodup
      · rw [if_neg hlen]
        exact alKeys_set_nodup _ _ _ h.idxNodup
    rw [happly]
    refine ⟨⟨?_, ?_, ?_, ?_, ?_, ?_, ?_⟩, htasks⟩
    · rw [htasks]
      exact alKeys_erase_nodup _ _ h.tasksNodup
    · exact hidxnd
    · intro s
      rw [hbucket]
      by_cases hs : s = t.status
      · rw [if_pos hs]
        exact alKeys_erase_nodup _ _ hbnd
      · rw [if_neg hs]
        exact h.bucketNodup s
    · intro uid u hu
      rw [htasks, alLookup_erase _ _ _ h.tasksNodup] at hu
      by_cases huid : uid = t.uid
      · rw [if_pos huid] at hu
        exact Option.noConfusion hu
      · rw [if_neg huid] at hu
        exact h.keyConsistent uid u hu
    · intro s uid
      rw [hbucket, htasks, alLookup_erase _ _ _ h.tasksNodup]
      by_cases hs : s = t.status
      · subst hs
        rw [if_pos rfl]
        by_cases huid : uid = t.uid
        · subst huid
          rw [if_pos rfl, alLookup_erase _ _ _ hbnd, if_pos rfl]
          rfl
        · rw [if_neg huid, alLookup_erase _ _ _ hbnd, if_neg huid,
            ← hbval, h.coh]
      · rw [if_neg hs]
        by_cases huid : uid = t.uid
        · subst huid
          rw [if_pos rfl, h.coh, hlt]
          simp only [Option.some_bind, Option.none_bind]
          rw [if_neg (fun he : t.status = s => hs he.symm)]
        · rw [if_neg huid, h.coh]
    · rw [htotal, htasks, h.aggT, sumResreq_erase ji.tasks t.uid t hlt]
    · rw [halloc, htasks]
      by_cases ha : AllocatedStatus t.status
      · rw [if_pos ha, h.aggA,
          sumResreq_filter_erase ji.tasks t.uid t _ hlt (by simp [ha])]
      · rw [if_neg ha, h.aggA,
          sumResreq_filter_erase_not ji.tasks t.uid t _ hlt
            (by simp [Bool.not_eq_true] at ha; simp [ha])]

theorem wf_delete (ji : JobInfo) (ti : TaskInfo) (h : WF ji) :
    WF (applyDelete ji ti) := by
  rcases hl : alLookup ti.uid ji.tasks with _ | t
  · rw [applyDelete_none ji ti hl]
    exact h
  · exact (wf_delete_some ji ti t h hl).1

theorem applyUpdate_eq (ji : JobInfo) (task : TaskInfo) (s : TaskStatus) :
    applyUpdate ji task s =
      (applyDelete ji task).AddTaskInfo { task with status := s } := by
  cases hD : ji.DeleteTaskInfo task <;>
    simp [applyUpdate, JobInfo.UpdateTaskStatus, validateStatusUpdate,
      applyDelete, hD]

/-- After a deletion of the task, its uid is not bound any more. -/
theorem applyDelete_fresh (ji : JobInfo) (task : TaskInfo) (h : WF ji) :
    alLookup task.uid (applyDelete ji task).tasks = none := by
  rcases hl : alLookup task.uid ji.tasks with _ | t
  · rw [applyDelete_none ji task hl]
    exact hl
  · have htu : t.uid = task.uid := h.keyConsistent task.uid t hl
    rw [(wf_delete_some ji task t h hl).2, htu,
      alLookup_erase _ _ _ h.tasksNodup, if_pos rfl]

theorem wf_update (ji : JobInfo) (task : TaskInfo) (s : TaskStatus)
    (h : WF ji) : WF (applyUpdate ji task s) := by
  rw [applyUpdate_eq]
  exact wf_add _ _ (wf_delete ji task h) (applyDelete_fresh ji task h)

/-- The jobs reachable by building with NewJobInfo and transforming with
AddTaskInfo on fresh uids, DeleteTaskInfo and UpdateTaskStatus.  The
freshness condition on AddTaskInfo is required: adding a task whose uid is
already stored double counts its request (theorem named in the results for
claim C7). -/
inductive Reach : JobInfo → Prop where
  | new (uid : JobID) : Reach (NewJobInfo uid [])
  | add (ji : JobInfo) (ti : TaskInfo) (hji : Reach ji)
      (hfresh : alLookup ti.uid ji.tasks = none) : Reach (ji.AddTaskInfo ti)
  | del (ji : JobInfo) (ti : TaskInfo) (hji : Reach ji) :
      Reach (applyDelete ji ti)
  | upd (ji : JobInfo) (task : TaskInfo) (s : TaskStatus) (hji : Reach ji) :
      Reach (applyUpdate ji task s)
  | setPodGroup (ji : JobInfo) (name namesp : String) (minMember : Int)
      (hji : Reach ji) : Reach (ji.SetPodGroup name namesp minMember)

theorem wf_empty (uid : JobID) : WF (NewJobInfo uid []) := by
  refine ⟨?_, ?_, ?_, ?_, ?_, ?_, ?_⟩ <;>
    simp [NewJobInfo, emptyJobInfo, alKeys, JobInfo.bucket, alLookup,
      sumResreq, EmptyResource]

/-- Every reachable job is well formed. -/
theorem reach_wf (ji : JobInfo) (h : Reach ji) : WF ji := by
  induction h with
  | new uid => exact wf_empty uid
  | add ji ti _ hfresh ih => exact wf_add ji ti ih hfresh
  | del ji ti _ ih => exact wf_delete ji ti ih
  | upd ji task s _ ih => exact wf_update ji task s ih
  | setPodGroup ji name namesp minMember _ ih =>
    exact ⟨ih.tasksNodup, ih.idxNodup, ih.bucketNodup, ih.keyConsistent,
      ih.coh, ih.aggT, ih.aggA⟩

/-- In a well formed job, the size of a status bucket is the number of stored
tasks with that status. -/
theorem bucket_length (ji : JobInfo) (h : WF ji) (s : TaskStatus) :
    (ji.bucket s).length =
      ji.tasks.countP (fun p => p.2.status = s) := by
  have hF : ∀ uid,
      alLookup uid (ji.tasks.filter (fun p => p.2.status = s)) =
        (alLookup uid ji.tasks).bind
          (fun t => if t.status = s then some t else none) := by
    intro uid
    rw [alLookup_filter uid ji.tasks _ h.tasksNodup]
    rcases alLookup uid ji.tasks with _ | t
    · rfl
    · simp
  have hlen := alLookup_length_eq (ji.bucket s)
    (ji.tasks.filter (fun p => p.2.status = s))
    (h.bucketNodup s)
    (alKeys_filter_nodup _ _ h.tasksNodup)
    (fun uid => by rw [h.coh, ← hF uid])
  rw [hlen, List.countP_eq_length_filter]

/-- The status index sum over a condition equals the count of stored tasks
whose status satisfies it, given per-status size agreement. -/
theorem idx_sum_countP (c : TaskStatus → Bool) :
    ∀ (idx : List (TaskStatus × List (TaskID × TaskInfo)))
      (L : List (TaskID × TaskInfo)),
      (alKeys idx).Nodup →
      (∀ s, ((alLookup s idx).getD []).length =
        L.countP (fun p => p.2.status = s)) →
      idx.foldr (fun p acc => if c p.1 then p.2.length + acc else acc) 0 =
        L.countP (fun p => c p.2.status) := by
  intro idx
  induction idx with
  | nil =>
    intro L _ hb
    cases L with
    | nil => simp
    | cons p rest =>
      exfalso
      have h0 := hb p.2.status
      simp [alLookup] at h0
  | cons e rest ih =>
    intro L hn hb
    rcases e with ⟨s₀, b₀⟩
    have hs₀mem : s₀ ∉ alKeys rest := (List.nodup_cons.mp hn).1
    have hn' : (alKeys rest).Nodup := (List.nodup_cons.mp hn).2
    have hb₀ : b₀.length = L.countP (fun p => p.2.status = s₀) := by
      have := hb s₀
      simpa [alLookup] using this
    have hrest : ∀ s, ((alLookup s rest).getD []).length =
        (L.filter (fun p => !(decide (p.2.status = s₀)))).countP
          (fun p => p.2.status = s) := by
      intro s
      by_cases hs : s = s₀
      · subst hs
        rw [(alLookup_eq_none_iff s rest).mpr hs₀mem]
        have : (L.filter (fun p => !(decide (p.2.status = s)))).countP
            (fun p => p.2.status = s) = 0 := by
          rw [List.countP_eq_zero]
          intro a ha
          have h2 := (List.mem_filter.mp ha).2
          simp only [Bool.not_eq_true', decide_eq_false_iff_not] at h2
          simp [h2]
        rw [this]
        rfl
      · have hlk : alLookup s ((s₀, b₀) :: rest) = alLookup s rest := by
          show (if s₀ = s then some b₀ else alLookup s rest) = alLookup s rest
          rw [if_neg (fun he : s₀ = s => hs he.symm)]
        have hcnt : (L.filter (fun p => !(decide (p.2.status = s₀)))).countP
            (fun p => p.2.status = s) = L.countP (fun p => p.2.status = s) := by
          rw [List.countP_filter]
          congr 1
          funext a
          by_cases hsa : a.2.status = s
          · have hns : ¬ a.2.status = s₀ := fun he => hs (hsa.symm.trans he)
            simp [hsa, hns, hs]
          · simp [hsa]
        rw [← hlk, hb s, hcnt]
    have hsplit : L.countP (fun p => c p.2.status) =
        (L.filter (fun p => decide (p.2.status = s₀))).countP
            (fun p => c p.2.status) +
          (L.filter (fun p => !(decide (p.2.status = s₀)))).countP
            (fun p => c p.2.status) := by
      rw [← List.countP_append]
      exact ((L.filter_append_perm _).countP_eq _).symm
    have hfirst : (L.filter (fun p => decide (p.2.status = s₀))).countP
        (fun p => c p.2.status) = if c s₀ then b₀.length else 0 := by
      by_cases hc : c s₀
      · rw [if_pos hc]
        have hall : (L.filter (fun p => decide (p.2.status = s₀))).countP
            (fun p => c p.2.status) =
            (L.filter (fun p => decide (p.2.status = s₀))).length := by
          rw [List.countP_eq_length]
          intro a ha
          have := (List.mem_filter.mp ha).2
          simp at this
          simp [this, hc]
        rw [hall, hb₀, List.countP_eq_length_filter]
      · rw [if_neg hc, List.countP_eq_zero]
        intro a ha
        have := (List.mem_filter.mp ha).2
        simp at this
        simp [this, hc]
    have hrec := ih (L.filter (fun p => !(decide (p.2.status = s₀)))) hn' hrest
    simp only [List.foldr_cons]
    rw [hrec, hsplit, hfirst]
    by_cases hc : c s₀ <;> simp [hc]

/-- Folding AddTaskInfo over cloned tasks with duplicate-free fresh keys
preserves well-formedness and appends exactly those tasks. -/
theorem rebuild_foldl :
    ∀ (ts : List (TaskID × TaskInfo)) (acc : JobInfo),
      WF acc →
      (∀ p ∈ ts, p.2.uid = p.1) →
      (alKeys acc.tasks ++ alKeys ts).Nodup →
      WF (ts.foldl (fun a p => a.AddTaskInfo p.2.Clone) acc) ∧
        (ts.foldl (fun a p => a.AddTaskInfo p.2.Clone) acc).tasks =
          acc.tasks ++ ts := by
  intro ts
  induction ts with
  | nil =>
    intro acc hacc _ _
    exact ⟨hacc, by simp⟩
  | cons p ts ih =>
    intro acc hacc huid hnd
    rcases p with ⟨pk, pv⟩
    have hpu : pv.uid = pk := huid (pk, pv) (List.mem_cons_self _ _)
    have hkeys : alKeys acc.tasks ++ alKeys ((pk, pv) :: ts) =
        alKeys acc.tasks ++ pk :: alKeys ts := by
      simp [alKeys]
    rw [hkeys] at hnd
    have hfresh : alLookup pv.uid acc.tasks = none := by
      rw [alLookup_eq_none_iff, hpu]
      intro hmem
      exact (List.nodup_append.mp hnd).2.2 hmem (List.mem_cons_self _ _)
    have hacc' : WF (acc.AddTaskInfo pv) := wf_add acc pv hacc hfresh
    have htasks' : (acc.AddTaskInfo pv).tasks = acc.tasks ++ [(pk, pv)] := by
      rw [addTaskInfo_tasks, alSet_absent _ _ _ hfresh, hpu]
    have hnd' : (alKeys (acc.AddTaskInfo pv).tasks ++ alKeys ts).Nodup := by
      rw [htasks']
      simp only [alKeys, List.map_append, List.map_cons, List.map_nil]
      rw [List.append_assoc]
      simpa [alKeys] using hnd
    have hstep := ih (acc.AddTaskInfo pv) hacc' (fun q hq => huid q (List.mem_cons_of_mem _ hq)) hnd'
    show WF (List.foldl (fun a p => a.AddTaskInfo p.2.Clone) (acc.AddTaskInfo pv) ts) ∧
      (List.foldl (fun a p => a.AddTaskInfo p.2.Clone) (acc.AddTaskInfo pv) ts).tasks =
        acc.tasks ++ (pk, pv) :: ts
    refine ⟨hstep.1, ?_⟩
    rw [hstep.2, htasks', List.append_assoc]
    rfl

theorem wf_cloneSeed (u : JobID) (n ns : String) (ma : Int) :
    WF
      { uid := u, name := n, namesp := ns, minAvailable := ma,
        nodesFitDelta := [], allocated := EmptyResource,
        totalRequest := EmptyResource, taskStatusIndex := [], tasks := [] } := by
  refine ⟨?_, ?_, ?_, ?_, ?_, ?_, ?_⟩ <;>
    simp [alKeys, JobInfo.bucket, alLookup, sumResreq, EmptyResource]

/-- The clone of a well formed job is well formed and stores the same task
table. -/
theorem clone_wf_tasks (ji : JobInfo) (h : WF ji) :
    WF ji.Clone ∧ ji.Clone.tasks = ji.tasks := by
  have huid : ∀ p ∈ ji.tasks, p.2.uid = p.1 := fun p hp =>
    h.keyConsistent p.1 p.2 (alLookup_of_mem ji.tasks p h.tasksNodup hp)
  have hres := rebuild_foldl ji.tasks
    { uid := ji.uid, name := ji.name, namesp := ji.namesp,
      minAvailable := ji.minAvailable, nodesFitDelta := [],
      allocated := EmptyResource, totalRequest := EmptyResource,
      taskStatusIndex := [], tasks := [] }
    (wf_cloneSeed ji.uid ji.name ji.namesp ji.minAvailable) huid
    (by simpa [alKeys] using h.tasksNodup)
  exact ⟨hres.1, by rw [JobInfo.Clone, hres.2]; rfl⟩

/-! ### Gang plugin (package gang) -/

/-- Modelled from the spec: the NotEnoughPods reason constant of the external
v1alpha1 package. -/
def NotEnoughPodsReason : String := "NotEnoughPods"

/-- Modelled from the spec: the NotEnoughResources reason constant of the
external v1alpha1 package. -/
def NotEnoughResourcesReason : String := "NotEnoughResources"

/-- Modelled from the spec: the PodGroupUnschedulable condition type of the
external v1alpha1 package. -/
def PodGroupUnschedulableType : String := "PodGroupUnschedulable"

/-- Modelled from the spec: the ConditionTrue constant of the external
Kubernetes core API. -/
def ConditionTrue : String := "True"

/-- ValidateResult from the scheduler api package (pass, reason, message). -/
structure ValidateResult where
  pass : Bool
  reason : String
  message : String
  deriving DecidableEq, Repr

/-- PodGroupCondition of the external v1alpha1 package, restricted to the
fields the gang plugin writes; the wall clock LastTransitionTime field is
outside the embedding. -/
structure PodGroupCondition where
  condType : String
  condStatus : String
  transitionID : String
  reason : String
  message : String
  deriving DecidableEq, Repr

/-- The loop shared by readyTaskNum and validTaskNum: iterate the status
index and add the bucket size whenever the status satisfies the condition. -/
def statusCountIf (c : TaskStatus → Bool) (ji : JobInfo) : Nat :=
  ji.taskStatusIndex.foldr
    (fun p acc => if c p.1 then p.2.length + acc else acc) 0

/-- readyTaskNum: the number of indexed tasks whose status is allocated,
Succeeded or Pipelined. -/
def readyTaskNum (job : JobInfo) : Int :=
  (statusCountIf
    (fun s => AllocatedStatus s || s = .Succeeded || s = .Pipelined) job : Nat)

/-- validTaskNum: the number of indexed tasks whose status is allocated,
Succeeded, Pipelined or Pending. -/
def validTaskNum (job : JobInfo) : Int :=
  (statusCountIf
    (fun s => AllocatedStatus s || s = .Succeeded || s = .Pipelined ||
      s = .Pending) job : Nat)

/-- In a well formed job, the shared counting loop over the status index
counts exactly the stored tasks whose status satisfies the condition. -/
theorem statusCountIf_eq_countP (c : TaskStatus → Bool) (ji : JobInfo)
    (h : WF ji) :
    statusCountIf c ji = ji.tasks.countP (fun p => c p.2.status) :=
  idx_sum_countP c ji.taskStatusIndex ji.tasks h.idxNodup
    (fun s => bucket_length ji h s)

/-- jobReady: at least MinAvailable tasks are ready. -/
def jobReady (job : JobInfo) : Bool :=
  job.minAvailable ≤ readyTaskNum job

/-- validJobFn registered by the gang plugin: reject with NotEnoughPods when
fewer than MinAvailable tasks are valid (the runtime type assertion branch of
the source cannot arise in the typed embedding). -/
def validJobFn (job : JobInfo) : Option ValidateResult :=
  let vtn := validTaskNum job
  if vtn < job.minAvailable then
    some
      { pass := false
        reason := NotEnoughPodsReason
        message := "Not enough valid tasks for gang-scheduling, valid: " ++
          toString vtn ++ ", min: " ++ toString job.minAvailable }
  else none

/-- The session snapshot the gang plugin reads: the job map and the session
UID. -/
structure Session where
  uid : String
  jobs : List (JobID × JobInfo)

/-- preemptableFn registered by the gang plugin: keep a candidate victim when
its owning job stays ready after losing one ready task, or when the owning
job has MinAvailable equal to one.  The source dereferences the job map entry
without a check, so a candidate whose job is missing from the session crashes
the Go program; the embedding drops such a candidate and every theorem about
this function constrains the owning job to be present. -/
def preemptableFn (ssn : Session) (_preemptor : TaskInfo)
    (preemptees : List TaskInfo) : List TaskInfo :=
  match preemptees with
  | [] => []
  | p :: rest =>
    match alLookup p.job ssn.jobs with
    | some job =>
      if job.minAvailable ≤ readyTaskNum job - 1 ∨ job.minAvailable = 1 then
        p :: preemptableFn ssn _preemptor rest
      else
        preemptableFn ssn _preemptor rest
    | none => preemptableFn ssn _preemptor rest

/-- Membership in the victim list kept by preemptableFn, for a candidate
whose owning job is present in the session. -/
theorem preemptableFn_mem (ssn : Session) (pr : TaskInfo) (t : TaskInfo)
    (j : JobInfo) (hj : alLookup t.job ssn.jobs = some j) :
    ∀ preemptees : List TaskInfo,
      t ∈ preemptableFn ssn pr preemptees ↔
        t ∈ preemptees ∧
          (j.minAvailable ≤ readyTaskNum j - 1 ∨ j.minAvailable = 1) := by
  intro preemptees
  induction preemptees with
  | nil => simp [preemptableFn]
  | cons p rest ih =>
    rcases hpj : alLookup p.job ssn.jobs with _ | jp
    · have hne : t ≠ p := by
        intro he
        rw [he, hpj] at hj
        exact Option.noConfusion hj
      simp only [preemptableFn, hpj, List.mem_cons]
      rw [ih]
      constructor
      · rintro ⟨hm, hc⟩
        exact ⟨Or.inr hm, hc⟩
      · rintro ⟨hm | hm, hc⟩
        · exact absurd hm hne
        · exact ⟨hm, hc⟩
    · by_cases hc : jp.minAvailable ≤ readyTaskNum jp - 1 ∨ jp.minAvailable = 1
      · simp only [preemptableFn, hpj, if_pos hc, List.mem_cons]
        rw [ih]
        constructor
        · rintro (he | ⟨hm, hcc⟩)
          · subst he
            rw [hpj] at hj
            cases hj
            exact ⟨Or.inl rfl, hc⟩
          · exact ⟨Or.inr hm, hcc⟩
        · rintro ⟨he | hm, hcc⟩
          · exact Or.inl he
          · exact Or.inr ⟨hm, hcc⟩
      · simp only [preemptableFn, hpj, if_neg hc, List.mem_cons]
        rw [ih]
        constructor
        · rintro ⟨hm, hcc⟩
          exact ⟨Or.inr hm, hcc⟩
        · rintro ⟨he | hm, hcc⟩
          · subst he
            rw [hpj] at hj
            cases hj
            exact absurd hcc hc
          · exact ⟨hm, hcc⟩

/-- The index counting loop is monotone in the status condition. -/
theorem statusCountIf_mono (c1 c2 : TaskStatus → Bool) (ji : JobInfo)
    (h : ∀ s, c1 s = true → c2 s = true) :
    statusCountIf c1 ji ≤ statusCountIf c2 ji := by
  unfold statusCountIf
  induction ji.taskStatusIndex with
  | nil => simp
  | cons p rest ih =>
    simp only [List.foldr_cons]
    by_cases h1 : c1 p.1
    · rw [if_pos h1, if_pos (h p.1 h1)]
      omega
    · rw [if_neg h1]
      by_cases h2 : c2 p.1
      · rw [if_pos h2]
        omega
      · rw [if_neg h2]
        exact ih

/-- jobOrderFn registered by the gang plugin: both ready or both not ready
compare equal, a ready job sorts after a not ready one. -/
def jobOrderFn (lv rv : JobInfo) : Int :=
  let lReady := jobReady lv
  let rReady := jobReady rv
  if lReady && rReady then 0
  else if lReady then 1
  else if rReady then -1
  else 0

/-- The functions the gang plugin registers on the session during
OnSessionOpen, by registration target. -/
structure GangRegistrations where
  jobValidFn : JobInfo → Option ValidateResult
  reclaimableFn : TaskInfo → List TaskInfo → List TaskInfo
  preemptFn : TaskInfo → List TaskInfo → List TaskInfo
  jobOrderCmp : JobInfo → JobInfo → Int
  jobReadyFn : JobInfo → Bool

/-- OnSessionOpen of the gang plugin: register validJobFn as the job valid
function, the one preemptableFn closure as both the reclaimable and the
preemptable function, jobOrderFn as the job order and jobReady as the job
ready function. -/
def gangOnSessionOpen (ssn : Session) : GangRegistrations :=
  { jobValidFn := validJobFn
    reclaimableFn := preemptableFn ssn
    preemptFn := preemptableFn ssn
    jobOrderCmp := jobOrderFn
    jobReadyFn := jobReady }

/-- The observable calls OnSessionClose makes, in order (metric updates and
condition publication). -/
inductive Effect where
  | updateUnscheduleTaskCount (jobName : String) (taskCount : Int)
  | registerJobRetries (jobName : String)
  | updateJobCondition (jobUid : JobID) (cond : PodGroupCondition)
  | updateUnscheduleJobCount (jobCount : Nat)
  deriving DecidableEq, Repr

/-- The unschedulable message of OnSessionClose for one job. -/
def unschedulableMsg (job : JobInfo) : String :=
  toString (job.minAvailable - readyTaskNum job) ++ "/" ++
    toString job.tasks.length ++ " tasks in gang unschedulable: " ++
    job.FitError

/-- The per-job body of the OnSessionClose loop. -/
def gangCloseJobEffects (uid : String) (job : JobInfo) : List Effect :=
  [ .updateUnscheduleTaskCount job.name (job.minAvailable - readyTaskNum job),
    .registerJobRetries job.name,
    .updateJobCondition job.uid
      { condType := PodGroupUnschedulableType
        condStatus := ConditionTrue
        transitionID := uid
        reason := NotEnoughResourcesReason
        message := unschedulableMsg job } ]

/-- The OnSessionClose loop: skip ready jobs, emit the three calls for every
job that is not ready while counting it, and finally report the count. -/
def gangCloseLoop (uid : String) : List JobInfo → Nat → List Effect
  | [], n => [.updateUnscheduleJobCount n]
  | job :: rest, n =>
    if jobReady job then gangCloseLoop uid rest n
    else gangCloseJobEffects uid job ++ gangCloseLoop uid rest (n + 1)

/-- OnSessionClose of the gang plugin (the Go source ranges over the job map
in unspecified order; the embedding walks the jobs in list order, and the
properties proved below are per job). -/
def gangOnSessionClose (ssn : Session) : List Effect :=
  gangCloseLoop ssn.uid (ssn.jobs.map Prod.snd) 0

/-- The close loop written as filter, concatenation and count. -/
theorem gangCloseLoop_eq (uid : String) :
    ∀ (js : List JobInfo) (n : Nat),
      gangCloseLoop uid js n =
        (js.filter (fun j => !jobReady j)).flatMap (gangCloseJobEffects uid) ++
          [.updateUnscheduleJobCount
            (n + js.countP (fun j => !jobReady j))] := by
  intro js
  induction js with
  | nil =>
    intro n
    simp [gangCloseLoop]
  | cons j js ih =>
    intro n
    by_cases hr : jobReady j
    · simp only [gangCloseLoop, hr, if_true, List.filter_cons,
        List.countP_cons, Bool.not_true, Bool.false_eq_true, if_false, ih n]
      simp
    · simp only [gangCloseLoop, hr, Bool.false_eq_true, if_false,
        List.filter_cons, List.countP_cons, Bool.not_false, if_true, ih (n + 1)]
      simp only [List.flatMap_cons, List.append_assoc]
      have : n + 1 + js.countP (fun j => !jobReady j) =
          n + (js.countP (fun j => !jobReady j) + 1) := by omega
      rw [this]

/-! ### Server options (cmd/kube-batch/app/options/options.go) -/

/-- ServerOption, the main context object for the controller manager. -/
structure ServerOption where
  master : String
  kubeconfig : String
  schedulerName : String
  schedulerConf : String
  schedulePeriodNs : Int
  enableLeaderElection : Bool
  lockObjectNamespace : String
  defaultQueue : String
  printVersion : Bool
  listenAddress : String
  deriving DecidableEq, Repr

/-- CheckOptionOrDie: an error exactly when leader election is enabled while
the lock object namespace is empty.  The Go method only reads the receiver,
so the embedding is a pure function of the option value. -/
def CheckOptionOrDie (s : ServerOption) : Option String :=
  if s.enableLeaderElection && s.lockObjectNamespace == "" then
    some "lock-object-namespace must not be nil when LeaderElection is enabled"
  else none

/-! ### Concrete inputs used by witnesses and counterexamples -/

/-- A pending task requesting one cpu. -/
def taskPendW1 : TaskInfo :=
  { uid := "t1", job := "ns/J", name := "t1", namesp := "ns",
    resreq := { cpu := 1000, memory := 0, gpu := 0 },
    initResreq := { cpu := 1000, memory := 0, gpu := 0 },
    nodeName := "", status := .Pending, priority := 1, volumeReady := false }

/-- A second pending task. -/
def taskPendW2 : TaskInfo := { taskPendW1 with uid := "t2", name := "t2" }

/-- A running task. -/
def taskRunW : TaskInfo :=
  { taskPendW1 with uid := "t3", name := "t3", status := .Running }

/-- A single-task running job with MinAvailable one. -/
def jobSingleW : JobInfo :=
  (NewJobInfo "ns/J" [taskRunW]).SetPodGroup "A" "ns" 1

/-- A session holding only that job. -/
def ssnSingleW : Session := { uid := "s1", jobs := [("ns/J", jobSingleW)] }

/-- An empty job that is ready (MinAvailable zero). -/
def jobReadyW : JobInfo := (NewJobInfo "ns/R" []).SetPodGroup "R" "ns" 0

/-- An empty job that is not ready (MinAvailable one). -/
def jobNotReadyW : JobInfo := (NewJobInfo "ns/N" []).SetPodGroup "N" "ns" 1

/-- A session with no jobs. -/
def ssnEmptyW : Session := { uid := "s0", jobs := [] }

/-- A job with one pending task and MinAvailable one: valid but not ready. -/
def jobValidW : JobInfo :=
  (NewJobInfo "ns/V" [taskPendW1]).SetPodGroup "V" "ns" 1

/-- An empty job with MinAvailable one: not valid. -/
def jobValCex : JobInfo := (NewJobInfo "ns/V0" []).SetPodGroup "V0" "ns" 1

/-- The shortfall scenario of the spec: MinAvailable three, two pending
tasks, no recorded node deltas. -/
def jobShortfall : JobInfo :=
  (NewJobInfo "ns/J" [taskPendW1, taskPendW2]).SetPodGroup "J" "ns" 3

/-- The session of the shortfall scenario. -/
def ssnShortfall : Session :=
  { uid := "sess-1", jobs := [("ns/J", jobShortfall)] }

/-- A job carrying the node fit deltas of the summarization example. -/
def jobFitW : JobInfo :=
  { emptyJobInfo "f" with
    nodesFitDelta :=
      [("n1", { cpu := -1, memory := 0, gpu := 0 }),
        ("n2", { cpu := 0, memory := -2, gpu := 0 }),
        ("n3", { cpu := -1, memory := 0, gpu := -1 })] }

/-- A single-task running job with MinAvailable one, for the readiness to
validity direction. -/
def jobReadyValidW : JobInfo :=
  (NewJobInfo "ns/T" [taskRunW]).SetPodGroup "T" "ns" 1

/-! ### The claims -/

/-- C1: a candidate victim passed to the gang preemptable function is kept
in the returned victim set exactly when its owning job, looked up in the
session job map, satisfies MinAvailable less or equal readyTaskNum minus one,
or has MinAvailable equal to one; every other candidate is filtered out, and
the very same function is registered as the reclaimable function. -/
theorem gang_preemptable_victims (ssn : Session) (preemptor : TaskInfo)
    (preemptees : List TaskInfo) (t : TaskInfo) (j : JobInfo)
    (hj : alLookup t.job ssn.jobs = some j) :
    (t ∈ (gangOnSessionOpen ssn).preemptFn preemptor preemptees ↔
      t ∈ preemptees ∧
        (j.minAvailable ≤ readyTaskNum j - 1 ∨ j.minAvailable = 1)) ∧
    (gangOnSessionOpen ssn).reclaimableFn =
      (gangOnSessionOpen ssn).preemptFn :=
  ⟨preemptableFn_mem ssn preemptor t j hj preemptees, rfl⟩

/-- Witness for C1 at a concrete session: the single running task of a job
with MinAvailable one is kept as a victim. -/
theorem gang_preemptable_victims_w :
    (taskRunW ∈ (gangOnSessionOpen ssnSingleW).preemptFn taskPendW1
        [taskRunW] ↔
      taskRunW ∈ [taskRunW] ∧
        (jobSingleW.minAvailable ≤ readyTaskNum jobSingleW - 1 ∨
          jobSingleW.minAvailable = 1)) ∧
    (gangOnSessionOpen ssnSingleW).reclaimableFn =
      (gangOnSessionOpen ssnSingleW).preemptFn :=
  gang_preemptable_victims ssnSingleW taskPendW1 [taskRunW] taskRunW
    jobSingleW rfl

/-- C2 (amended): for a job the program can build, the gang job valid
function passes exactly when at least MinAvailable stored tasks have a
status in AllocatedStatus or Succeeded, Pipelined or Pending, and otherwise
fails with reason NotEnoughPods and the message
"Not enough valid tasks for gang-scheduling, valid: X, min: Y" (the spec
quoted the message without the spaces the source prints after the colons). -/
theorem gang_validJob_amended (ji : JobInfo) (h : Reach ji) :
    (validJobFn ji = none ↔
      ji.minAvailable ≤
        (ji.tasks.countP (fun p => AllocatedStatus p.2.status ||
          p.2.status = .Succeeded || p.2.status = .Pipelined ||
          p.2.status = .Pending) : Int)) ∧
    ((ji.tasks.countP (fun p => AllocatedStatus p.2.status ||
        p.2.status = .Succeeded || p.2.status = .Pipelined ||
        p.2.status = .Pending) : Int) < ji.minAvailable →
      validJobFn ji = some
        { pass := false
          reason := NotEnoughPodsReason
          message := "Not enough valid tasks for gang-scheduling, valid: " ++
            toString ((ji.tasks.countP (fun p => AllocatedStatus p.2.status ||
              p.2.status = .Succeeded || p.2.status = .Pipelined ||
              p.2.status = .Pending) : Int)) ++ ", min: " ++
            toString ji.minAvailable }) := by
  have hbridge : validTaskNum ji =
      (ji.tasks.countP (fun p => AllocatedStatus p.2.status ||
        p.2.status = .Succeeded || p.2.status = .Pipelined ||
        p.2.status = .Pending) : Int) := by
    unfold validTaskNum
    rw [statusCountIf_eq_countP _ ji (reach_wf ji h)]
  rw [← hbridge]
  constructor
  · simp only [validJobFn]
    by_cases hlt : validTaskNum ji < ji.minAvailable
    · simp [hlt]
    · simp [hlt]
      omega
  · intro hlt
    simp only [validJobFn]
    rw [if_pos hlt]

/-- Counterexample for C2 as stated: at an empty job with MinAvailable one
the failing message reads "valid: 0, min: 1", not "valid:0, min:1". -/
theorem gang_validJob_message_cex :
    validJobFn jobValCex = some
      { pass := false
        reason := NotEnoughPodsReason
        message :=
          "Not enough valid tasks for gang-scheduling, valid: 0, min: 1" } ∧
    "Not enough valid tasks for gang-scheduling, valid: 0, min: 1" ≠
      "Not enough valid tasks for gang-scheduling, valid:0, min:1" := by
  constructor
  · decide
  · decide

/-- Witness for C2 at a job with one pending task and MinAvailable one. -/
theorem gang_validJob_amended_w :
    (validJobFn jobValidW = none ↔
      jobValidW.minAvailable ≤
        (jobValidW.tasks.countP (fun p => AllocatedStatus p.2.status ||
          p.2.status = .Succeeded || p.2.status = .Pipelined ||
          p.2.status = .Pending) : Int)) ∧
    ((jobValidW.tasks.countP (fun p => AllocatedStatus p.2.status ||
        p.2.status = .Succeeded || p.2.status = .Pipelined ||
        p.2.status = .Pending) : Int) < jobValidW.minAvailable →
      validJobFn jobValidW = some
        { pass := false
          reason := NotEnoughPodsReason
          message := "Not enough valid tasks for gang-scheduling, valid: " ++
            toString ((jobValidW.tasks.countP
              (fun p => AllocatedStatus p.2.status ||
                p.2.status = .Succeeded || p.2.status = .Pipelined ||
                p.2.status = .Pending) : Int)) ++ ", min: " ++
            toString jobValidW.minAvailable }) :=
  gang_validJob_amended jobValidW
    (Reach.setPodGroup _ "V" "ns" 1
      (Reach.add _ taskPendW1 (Reach.new "ns/V") rfl))

/-- C3: under the gang job order function, two jobs that are both ready or
both not ready compare equal, a ready job sorts strictly after a not ready
one, and a not ready job sorts strictly before a ready one. -/
theorem gang_jobOrder_spec (ssn : Session) (l r : JobInfo) :
    (jobReady l = jobReady r → (gangOnSessionOpen ssn).jobOrderCmp l r = 0) ∧
    (jobReady l = true → jobReady r = false →
      0 < (gangOnSessionOpen ssn).jobOrderCmp l r) ∧
    (jobReady r = true → jobReady l = false →
      (gangOnSessionOpen ssn).jobOrderCmp l r < 0) := by
  show (jobReady l = jobReady r → jobOrderFn l r = 0) ∧
    (jobReady l = true → jobReady r = false → 0 < jobOrderFn l r) ∧
    (jobReady r = true → jobReady l = false → jobOrderFn l r < 0)
  unfold jobOrderFn
  by_cases hl : jobReady l <;> by_cases hr : jobReady r <;> simp [hl, hr]

/-- Witness for C3: a not ready job sorts before a ready one. -/
theorem gang_jobOrder_spec_w :
    0 < (gangOnSessionOpen ssnEmptyW).jobOrderCmp jobReadyW jobNotReadyW :=
  (gang_jobOrder_spec ssnEmptyW jobReadyW jobNotReadyW).2.1 (by decide)
    (by decide)

/-- C4: at session close the gang plugin emits, for exactly the jobs that
are not ready, UpdateUnscheduleTaskCount of the shortfall, one
RegisterJobRetries, and one PodGroupUnschedulable condition carrying the
session UID as transition id and the message
"shortfall/taskcount tasks in gang unschedulable: FitError"; ready jobs
contribute nothing, and the trace ends with UpdateUnscheduleJobCount of the
number of jobs that are not ready. -/
theorem gang_sessionClose_spec (ssn : Session) :
    gangOnSessionClose ssn =
      ((ssn.jobs.map Prod.snd).filter (fun j => !jobReady j)).flatMap
          (fun j =>
            [Effect.updateUnscheduleTaskCount j.name
                (j.minAvailable - readyTaskNum j),
              Effect.registerJobRetries j.name,
              Effect.updateJobCondition j.uid
                { condType := PodGroupUnschedulableType
                  condStatus := ConditionTrue
                  transitionID := ssn.uid
                  reason := NotEnoughResourcesReason
                  message := toString (j.minAvailable - readyTaskNum j) ++
                    "/" ++ toString j.tasks.length ++
                    " tasks in gang unschedulable: " ++ j.FitError }]) ++
        [Effect.updateUnscheduleJobCount
          ((ssn.jobs.map Prod.snd).countP (fun j => !jobReady j))] := by
  rw [gangOnSessionClose, gangCloseLoop_eq]
  simp only [Nat.zero_add]
  rfl

/-- C6: FitError of a job with no recorded node deltas is exactly
"0 nodes are available"; otherwise it is "0/N nodes are available, S." where
N is the number of recorded deltas and S joins with ", " the strings
"k insufficient cpu", "m insufficient memory", "g insufficient GPU" for the
counts of nodes whose delta in that dimension is negative, each included
only when nonzero, sorted lexicographically. -/
theorem fitError_summary (ji : JobInfo) :
    (ji.nodesFitDelta = [] → ji.FitError = "0 nodes are available") ∧
    (ji.nodesFitDelta ≠ [] →
      ji.FitError = "0/" ++ toString ji.nodesFitDelta.length ++
        " nodes are available, " ++
        String.intercalate ", "
          (sortStrings
            ((if 0 < ji.nodesFitDelta.countP (fun p => decide (p.2.cpu < 0))
              then [toString
                  (ji.nodesFitDelta.countP (fun p => decide (p.2.cpu < 0))) ++
                  " insufficient cpu"]
              else []) ++
              (if 0 < ji.nodesFitDelta.countP
                  (fun p => decide (p.2.memory < 0))
              then [toString
                  (ji.nodesFitDelta.countP
                    (fun p => decide (p.2.memory < 0))) ++
                  " insufficient memory"]
              else []) ++
              (if 0 < ji.nodesFitDelta.countP (fun p => decide (p.2.gpu < 0))
              then [toString
                  (ji.nodesFitDelta.countP (fun p => decide (p.2.gpu < 0))) ++
                  " insufficient GPU"]
              else []))) ++ ".") := by
  constructor
  · intro he
    simp [JobInfo.FitError, he]
  · intro hne
    have hlen : ¬ ji.nodesFitDelta.length = 0 := by
      simpa [List.length_eq_zero] using hne
    have hperm : List.Perm
        ((fitReasons ji.nodesFitDelta).map
          (fun p => toString p.2 ++ " insufficient " ++ p.1))
        ((canonicalReasons
          (ji.nodesFitDelta.countP (fun p => decide (p.2.cpu < 0)))
          (ji.nodesFitDelta.countP (fun p => decide (p.2.memory < 0)))
          (ji.nodesFitDelta.countP (fun p => decide (p.2.gpu < 0)))).map
          (fun p => toString p.2 ++ " insufficient " ++ p.1)) :=
      (fitReasons_perm ji.nodesFitDelta).map _
    have hcanon : (canonicalReasons
        (ji.nodesFitDelta.countP (fun p => decide (p.2.cpu < 0)))
        (ji.nodesFitDelta.countP (fun p => decide (p.2.memory < 0)))
        (ji.nodesFitDelta.countP (fun p => decide (p.2.gpu < 0)))).map
        (fun p => toString p.2 ++ " insufficient " ++ p.1) =
        (if 0 < ji.nodesFitDelta.countP (fun p => decide (p.2.cpu < 0))
          then [toString
              (ji.nodesFitDelta.countP (fun p => decide (p.2.cpu < 0))) ++
              " insufficient cpu"]
          else []) ++
          (if 0 < ji.nodesFitDelta.countP (fun p => decide (p.2.memory < 0))
          then [toString
              (ji.nodesFitDelta.countP (fun p => decide (p.2.memory < 0))) ++
              " insufficient memory"]
          else []) ++
          (if 0 < ji.nodesFitDelta.countP (fun p => decide (p.2.gpu < 0))
          then [toString
              (ji.nodesFitDelta.countP (fun p => decide (p.2.gpu < 0))) ++
              " insufficient GPU"]
          else []) := by
      by_cases h1 : 0 < ji.nodesFitDelta.countP (fun p => decide (p.2.cpu < 0)) <;>
        by_cases h2 : 0 < ji.nodesFitDelta.countP
          (fun p => decide (p.2.memory < 0)) <;>
        by_cases h3 : 0 < ji.nodesFitDelta.countP
          (fun p => decide (p.2.gpu < 0)) <;>
        simp [canonicalReasons, h1, h2, h3, String.append_assoc,
          show (" insufficient " ++ "cpu" : String) = " insufficient cpu"
            from by decide,
          show (" insufficient " ++ "memory" : String) = " insufficient memory"
            from by decide,
          show (" insufficient " ++ "GPU" : String) = " insufficient GPU"
            from by decide]
    rw [JobInfo.FitError, if_neg hlen, ← hcanon]
    simp only [sortStrings_eq_of_perm _ _ hperm]

/-- C5 (amended): for the job with MinAvailable three, two pending tasks and
no recorded node deltas, close emits UpdateUnscheduleTaskCount three, one
RegisterJobRetries, the PodGroupUnschedulable condition with message
"3/2 tasks in gang unschedulable: 0 nodes are available" (the shortfall is
MinAvailable minus readyTaskNum, which is three, not the one the spec
computed) and UpdateUnscheduleJobCount one. -/
theorem gang_shortfall_trace :
    gangOnSessionClose ssnShortfall =
      [Effect.updateUnscheduleTaskCount "J" 3,
        Effect.registerJobRetries "J",
        Effect.updateJobCondition "ns/J"
          { condType := PodGroupUnschedulableType
            condStatus := ConditionTrue
            transitionID := "sess-1"
            reason := NotEnoughResourcesReason
            message := "3/2 tasks in gang unschedulable: 0 nodes are available" },
        Effect.updateUnscheduleJobCount 1] := by
  decide

/-- Counterexample for C5 as stated: no condition published at close of the
shortfall session carries the message
"1/2 tasks in gang unschedulable: 0 nodes are available". -/
theorem gang_shortfall_cex :
    (gangOnSessionClose ssnShortfall).all (fun e =>
      match e with
      | .updateJobCondition _ c =>
        !(c.message == "1/2 tasks in gang unschedulable: 0 nodes are available")
      | _ => true) = true := by
  decide

/-- Witness for C6 at the summarization example of the spec: three deltas,
two nodes short on cpu, one on memory, one on GPU. -/
theorem fitError_summary_w :
    jobFitW.FitError =
      "0/3 nodes are available, 1 insufficient GPU, 1 insufficient memory, 2 insufficient cpu." :=
  ((fitError_summary jobFitW).2 (by decide)).trans (by decide)

/-- C7 (amended): every job built by NewJobInfo and transformed by
AddTaskInfo calls on uids not already stored, DeleteTaskInfo calls and
UpdateTaskStatus calls has Allocated equal to the sum of Resreq over its
tasks with an allocated status and TotalRequest equal to the sum of Resreq
over all its tasks (adding a task under a uid that is already stored double
counts its request, so the claim fails for unrestricted sequences). -/
theorem job_aggregates_amended (ji : JobInfo) (h : Reach ji) :
    ji.allocated =
      sumResreq (ji.tasks.filter fun p => AllocatedStatus p.2.status) ∧
    ji.totalRequest = sumResreq ji.tasks :=
  ⟨(reach_wf ji h).aggA, (reach_wf ji h).aggT⟩

/-- Counterexample for C7 as stated: adding the same pending task twice
leaves TotalRequest at twice the sum of the stored requests. -/
theorem job_aggregates_cex :
    ¬ ((((NewJobInfo "u" []).AddTaskInfo taskPendW1).AddTaskInfo
        taskPendW1).totalRequest =
      sumResreq ((((NewJobInfo "u" []).AddTaskInfo taskPendW1).AddTaskInfo
        taskPendW1)).tasks) := by
  decide

/-- Witness for C7 after one fresh AddTaskInfo. -/
theorem job_aggregates_amended_w :
    ((NewJobInfo "u" []).AddTaskInfo taskPendW1).allocated =
        sumResreq (((NewJobInfo "u" []).AddTaskInfo taskPendW1).tasks.filter
          fun p => AllocatedStatus p.2.status) ∧
      ((NewJobInfo "u" []).AddTaskInfo taskPendW1).totalRequest =
        sumResreq ((NewJobInfo "u" []).AddTaskInfo taskPendW1).tasks :=
  job_aggregates_amended _ (Reach.add _ taskPendW1 (Reach.new "u") rfl)

/-- C8: the clone of a job the program can build agrees with the original on
the task table (the task stored under every uid, with all fields equal), on
every status index bucket, and on the recomputed aggregates. -/
theorem clone_structural_eq (ji : JobInfo) (h : Reach ji) :
    (∀ uid, alLookup uid ji.Clone.tasks = alLookup uid ji.tasks) ∧
    (∀ s uid, alLookup uid (ji.Clone.bucket s) = alLookup uid (ji.bucket s)) ∧
    ji.Clone.allocated = ji.allocated ∧
    ji.Clone.totalRequest = ji.totalRequest := by
  have hwf := reach_wf ji h
  have hct := clone_wf_tasks ji hwf
  refine ⟨fun uid => by rw [hct.2], fun s uid => ?_, ?_, ?_⟩
  · rw [hct.1.coh, hwf.coh, hct.2]
  · rw [hct.1.aggA, hwf.aggA, hct.2]
  · rw [hct.1.aggT, hwf.aggT, hct.2]

/-- Witness for C8 at a job holding one pending task. -/
theorem clone_structural_eq_w :
    (∀ uid, alLookup uid ((NewJobInfo "u" []).AddTaskInfo taskPendW1).Clone.tasks =
      alLookup uid ((NewJobInfo "u" []).AddTaskInfo taskPendW1).tasks) ∧
    (∀ s uid,
      alLookup uid (((NewJobInfo "u" []).AddTaskInfo taskPendW1).Clone.bucket s) =
        alLookup uid (((NewJobInfo "u" []).AddTaskInfo taskPendW1).bucket s)) ∧
    ((NewJobInfo "u" []).AddTaskInfo taskPendW1).Clone.allocated =
      ((NewJobInfo "u" []).AddTaskInfo taskPendW1).allocated ∧
    ((NewJobInfo "u" []).AddTaskInfo taskPendW1).Clone.totalRequest =
      ((NewJobInfo "u" []).AddTaskInfo taskPendW1).totalRequest :=
  clone_structural_eq _ (Reach.add _ taskPendW1 (Reach.new "u") rfl)

/-- C9: CheckOptionOrDie returns an error exactly when leader election is
enabled while the lock object namespace is empty; it is a pure read of the
option value. -/
theorem checkOption_spec (s : ServerOption) :
    (CheckOptionOrDie s).isSome = true ↔
      s.enableLeaderElection = true ∧ s.lockObjectNamespace = "" := by
  unfold CheckOptionOrDie
  by_cases h1 : s.enableLeaderElection <;>
    by_cases h2 : s.lockObjectNamespace = "" <;> simp [h1, h2]

/-- C10: for every job, validTaskNum is at least readyTaskNum, and a job
accepted by the gang readiness predicate passes the gang validity check. -/
theorem valid_ge_ready (job : JobInfo) :
    readyTaskNum job ≤ validTaskNum job ∧
      (jobReady job = true → validJobFn job = none) := by
  have hmono := statusCountIf_mono
    (fun s => AllocatedStatus s || s = .Succeeded || s = .Pipelined)
    (fun s => AllocatedStatus s || s = .Succeeded || s = .Pipelined ||
      s = .Pending) job
    (fun s hs => by
      simp only [] at hs ⊢
      rw [hs]
      simp)
  have hle : readyTaskNum job ≤ validTaskNum job := by
    unfold readyTaskNum validTaskNum
    exact_mod_cast hmono
  refine ⟨hle, fun hready => ?_⟩
  have hmin : job.minAvailable ≤ readyTaskNum job := of_decide_eq_true hready
  simp only [validJobFn]
  rw [if_neg (by omega)]

/-- Witness for C10 at a ready single-task job. -/
theorem valid_ge_ready_w :
    readyTaskNum jobReadyValidW ≤ validTaskNum jobReadyValidW ∧
      validJobFn jobReadyValidW = none :=
  ⟨(valid_ge_ready jobReadyValidW).1,
    (valid_ge_ready jobReadyValidW).2 (by decide)⟩

end KubeBatch
